import Mathlib

/-!
Verification development for the cluster vote-listening and
optimistic-confirmation core (src/core/src/cluster_info_vote_listener.rs).

The Rust code is shallowly embedded: pubkeys, hashes, slots, epochs and
signatures are natural numbers; hash maps keyed by naturals become either
functions into Option or association lists (where the code iterates over
the map or sums over it); the crossbeam output channels become lists of
sent messages collected in an Outputs record.

The VoteStakeTracker type and its add_vote_pubkey operation, the
DUPLICATE_THRESHOLD constant and the vote-transaction parser live in
files of the repository that are not part of src/; those are modelled
from the specification and are marked as such in their doc comments.
-/

namespace SolanaKS

/-- A vote: an ordered sequence of slots plus the block hash of the last
slot (src: solana_vote_program::vote_state::Vote, fields used by the
listener are slots and hash). -/
structure Vote where
  slots : List Nat
  hash : Nat
deriving DecidableEq, Repr

/-- The part of a transaction message the listener reads: the account
keys and the number of required signatures; is_signer i holds when
i < numRequiredSignatures (src: solana_sdk Message::is_signer). -/
structure Message where
  accountKeys : List Nat
  numRequiredSignatures : Nat
deriving DecidableEq, Repr

/-- Modelled from the spec: the vote parser (spec 4.B) is external to
src/; it is a pure function of the transaction, so its result
(voter_key, Vote, optional switch-proof hash), or none when the
transaction is not a recognizable vote, is carried as a field of the
transaction value. -/
structure Transaction where
  message : Message
  signatures : List Nat
  parsedVote : Option (Nat × Vote × Option Nat)
deriving DecidableEq, Repr

/-- Modelled from the spec: parse_vote_transaction (spec 4.B), external
to src/, read off from the transaction value. -/
def parse_vote_transaction (tx : Transaction) : Option (Nat × Vote × Option Nat) :=
  tx.parsedVote

/-- A one-transaction packet chunk as produced by to_packets_chunked
with chunk size 1; the discard flag is the one set by signature
verification. -/
structure Packet where
  source : Transaction
  discard : Bool
deriving DecidableEq, Repr

/-- src: verified_vote_packets::VerifiedVoteMetadata (fields used in
verify_votes). -/
structure VerifiedVoteMetadata where
  voteAccountKey : Nat
  vote : Vote
  packet : Packet
  signature : Nat
deriving DecidableEq, Repr

/-- Modelled from the spec: VoteStakeTracker (spec 3 and 4.C), whose
source file is not part of src/. It keeps the set of voters that
contributed, their summed stake, and the indices of the configured
threshold fractions that have already been reported (spec: "Each
threshold fires at most once ever; recorded in thresholds_crossed"). -/
structure VoteStakeTracker where
  voted : List Nat
  stake : Nat
  thresholdsCrossed : List Nat
deriving DecidableEq, Repr

/-- A fresh, empty VoteStakeTracker (Rust Default). -/
def newVoteStakeTracker : VoteStakeTracker :=
  { voted := [], stake := 0, thresholdsCrossed := [] }

/-- Modelled from the spec: DUPLICATE_THRESHOLD (defined in
replay_stage.rs, not part of src/) as a fraction numerator/denominator;
the spec fixes only that it is a fraction strictly between 0 and 1 and
weaker than VOTE_THRESHOLD; the claims do not depend on its value. -/
def DUPLICATE_THRESHOLD : Nat × Nat := (52, 100)

/-- Modelled from the spec: VOTE_THRESHOLD_SIZE = 2/3 (spec S1), defined
in solana_runtime::commitment, not part of src/. -/
def VOTE_THRESHOLD_SIZE : Nat × Nat := (2, 3)

/-- src line 70: the ordered list of thresholds checked on the tip slot,
DUPLICATE_THRESHOLD first, VOTE_THRESHOLD_SIZE second. -/
def THRESHOLDS_TO_CHECK : List (Nat × Nat) := [DUPLICATE_THRESHOLD, VOTE_THRESHOLD_SIZE]

/-- Modelled from the spec: VoteStakeTracker::add_vote_pubkey (spec 4.C
add_to_hash), whose source file is not part of src/. Adds the voter if
absent and, if absent, adds its stake; returns for each threshold
whether it just crossed (total stake strictly above the fraction of the
total epoch stake, and that threshold not yet recorded), together with
whether the voter was newly added; crossed thresholds are recorded in
thresholdsCrossed so each fires at most once. -/
def add_vote_pubkey (t : VoteStakeTracker) (pubkey stake totalEpochStake : Nat)
    (thresholds : List (Nat × Nat)) : (List Bool × Bool) × VoteStakeTracker :=
  if pubkey ∈ t.voted then
    ((thresholds.map fun _ => false, false), t)
  else
    let newStake := t.stake + stake
    let fireAt : Nat × (Nat × Nat) → Bool := fun it =>
      decide (it.1 ∉ t.thresholdsCrossed) &&
        decide (it.2.1 * totalEpochStake < newStake * it.2.2)
    ((thresholds.enum.map fireAt, true),
      { voted := pubkey :: t.voted,
        stake := newStake,
        thresholdsCrossed :=
          t.thresholdsCrossed ++ (thresholds.enum.filter fireAt).map Prod.fst })

/-- src lines 74-82: per-slot tracker. voted maps a pubkey to whether
the vote has been seen on gossip (true) or only in replay (false);
optimisticVotesTracker maps a block hash to the VoteStakeTracker of
that (slot, hash) pair. -/
structure SlotVoteTracker where
  voted : List (Nat × Bool)
  optimisticVotesTracker : Nat → Option VoteStakeTracker
  votedSlotUpdates : Option (List Nat)
  gossipOnlyStake : Nat

/-- The SlotVoteTracker created by get_or_insert_slot_tracker
(src lines 130-135). -/
def newSlotVoteTracker : SlotVoteTracker :=
  { voted := [], optimisticVotesTracker := fun _ => none,
    votedSlotUpdates := none, gossipOnlyStake := 0 }

/-- src lines 97-106: the process-singleton tracker. The epoch schedule
is embedded as its get_epoch function (slot to epoch). -/
structure VoteTracker where
  slotVoteTrackers : Nat → Option SlotVoteTracker
  epochAuthorizedVoters : Nat → Option (Nat → Option Nat)
  leaderScheduleEpoch : Nat
  currentEpoch : Nat
  epochSchedule : Nat → Nat

/-- The epoch-stake information the listener reads from the root bank:
vote account pubkey to stake, the total stake of the epoch, and the
authorized-voter map installed by progress_leader_schedule_epoch. -/
structure EpochStakes where
  voteAccounts : Nat → Option Nat
  totalStake : Nat
  authorizedVoters : Nat → Option Nat

/-- The root-bank interface used by the listener (spec 6): slot, the
epoch schedule (get_epoch), epoch_stakes per epoch, and
get_leader_schedule_epoch at the bank's own slot. -/
structure Bank where
  slot : Nat
  epochSchedule : Nat → Nat
  epochStakes : Nat → Option EpochStakes
  leaderScheduleEpoch : Nat

/-- Bank::epoch(): the epoch of the bank's slot. -/
def Bank.epoch (b : Bank) : Nat := b.epochSchedule b.slot

/-- src lines 150-159: VoteTracker::get_authorized_voter. -/
def get_authorized_voter (vt : VoteTracker) (pubkey : Nat) (slot : Nat) : Option Nat :=
  let epoch := vt.epochSchedule slot
  match vt.epochAuthorizedVoters epoch with
  | none => none
  | some eav => eav pubkey

/-- The index-carrying search loop of vote_contains_authorized_voter. -/
def signer_search (m : Message) (authorizedVoter : Nat) : Nat → List Nat → Bool
  | _, [] => false
  | i, key :: rest =>
    if i < m.numRequiredSignatures ∧ key = authorizedVoter then true
    else signer_search m authorizedVoter (i + 1) rest

/-- src lines 161-173: VoteTracker::vote_contains_authorized_voter;
true when some signer position of the message carries the authorized
voter's pubkey. -/
def vote_contains_authorized_voter (voteTx : Transaction) (authorizedVoter : Nat) : Bool :=
  signer_search voteTx.message authorizedVoter 0 voteTx.message.accountKeys

/-- src lines 126-144: get_or_insert_slot_tracker, returning the
tracker for the slot together with the (possibly extended) top map. -/
def get_or_insert_slot_tracker (vt : VoteTracker) (slot : Nat) :
    SlotVoteTracker × VoteTracker :=
  match vt.slotVoteTrackers slot with
  | some st => (st, vt)
  | none =>
    (newSlotVoteTracker,
      { vt with slotVoteTrackers := fun s =>
          if s = slot then some newSlotVoteTracker else vt.slotVoteTrackers s })

/-- Store an updated SlotVoteTracker back (the Rust code mutates the
tracker in place behind its lock). -/
def set_slot_tracker (vt : VoteTracker) (slot : Nat) (st : SlotVoteTracker) : VoteTracker :=
  { vt with slotVoteTrackers := fun s =>
      if s = slot then some st else vt.slotVoteTrackers s }

/-- src lines 914-929: track_optimistic_confirmation_vote; inserts the
vote into the (slot, hash) VoteStakeTracker and returns the per-
threshold crossing report and whether the voter was new. -/
def track_optimistic_confirmation_vote (vt : VoteTracker)
    (slot hash pubkey stake totalEpochStake : Nat) : (List Bool × Bool) × VoteTracker :=
  let p := get_or_insert_slot_tracker vt slot
  let st := p.1
  let vst := (st.optimisticVotesTracker hash).getD newVoteStakeTracker
  let r := add_vote_pubkey vst pubkey stake totalEpochStake THRESHOLDS_TO_CHECK
  (r.1, set_slot_tracker p.2 slot
    { st with optimisticVotesTracker := fun h =>
        if h = hash then some r.2 else st.optimisticVotesTracker h })

/-- src lines 931-937: sum_stake; adds the pubkey's stake to the sum
when the epoch stakes and the vote account are known. -/
def sum_stake (sum : Nat) (epochStakes : Option EpochStakes) (pubkey : Nat) : Nat :=
  match epochStakes with
  | some stakes =>
    match stakes.voteAccounts pubkey with
    | some stake => sum + stake
    | none => sum
  | none => sum

/-- src lines 191-220: progress_leader_schedule_epoch; installs the
authorized-voter map of every epoch between the stored
leader_schedule_epoch and the root bank's leader-schedule epoch that is
not yet present, and advances leader_schedule_epoch to the greatest
epoch actually installed. The source unwraps epoch_stakes of each such
epoch (panicking when absent); here a missing entry installs an empty
map, a value no claim depends on. -/
def progress_leader_schedule_epoch (vt : VoteTracker) (rootBank : Bank) : VoteTracker :=
  let startEpoch := vt.leaderScheduleEpoch
  let range := List.range' startEpoch (rootBank.leaderScheduleEpoch + 1 - startEpoch)
  let step : (Nat → Option (Nat → Option Nat)) × Nat → Nat →
      (Nat → Option (Nat → Option Nat)) × Nat := fun acc e =>
    if (acc.1 e).isSome then acc
    else
      (fun k => if k = e then
          some (((rootBank.epochStakes e).map EpochStakes.authorizedVoters).getD
            (fun _ => none))
        else acc.1 k, e)
  let r := range.foldl step (vt.epochAuthorizedVoters, startEpoch)
  { vt with
    epochAuthorizedVoters := r.1
    leaderScheduleEpoch := if r.2 ≠ startEpoch then r.2 else vt.leaderScheduleEpoch }

/-- src lines 222-240: purge_stale_state; drops every SlotVoteTracker
whose slot is below the new root, and, when the root's epoch differs
from the stored current_epoch, drops every epoch_authorized_voters
entry whose epoch is below the root's epoch and stores the root's
epoch as current_epoch. -/
def purge_stale_state (vt : VoteTracker) (rootBank : Bank) : VoteTracker :=
  let newRoot := rootBank.slot
  let rootEpoch := rootBank.epoch
  let vt1 := { vt with slotVoteTrackers := fun s =>
      if newRoot ≤ s then vt.slotVoteTrackers s else none }
  if rootEpoch ≠ vt1.currentEpoch then
    { vt1 with
      epochAuthorizedVoters := fun e =>
        if rootEpoch ≤ e then vt1.epochAuthorizedVoters e else none
      currentEpoch := rootEpoch }
  else vt1

/-- src lines 242-245: progress_with_new_root_bank. -/
def progress_with_new_root_bank (vt : VoteTracker) (rootBank : Bank) : VoteTracker :=
  purge_stale_state (progress_leader_schedule_epoch vt rootBank) rootBank

/-- Messages sent on the outbound buses, in send order: the
gossip-verified-vote-hash bus (pubkey, slot, hash), the
duplicate-confirmed bus, the OptimisticallyConfirmed bank
announcements, the verified-vote bus (pubkey, slots) and the RPC
notify_vote callback. -/
structure Outputs where
  gossipVerifiedVoteHash : List (Nat × Nat × Nat)
  clusterConfirmedSlots : List (List (Nat × Nat))
  optimisticallyConfirmedSent : List Nat
  verifiedVotes : List (Nat × List Nat)
  notifiedVotes : List Vote
deriving DecidableEq, Repr

/-- No messages sent yet. -/
def emptyOutputs : Outputs :=
  { gossipVerifiedVoteHash := [], clusterConfirmedSlots := [],
    optimisticallyConfirmedSent := [], verifiedVotes := [], notifiedVotes := [] }

/-- Concatenation of two message logs (earlier sends first). -/
def appendOutputs (o1 o2 : Outputs) : Outputs :=
  { gossipVerifiedVoteHash := o1.gossipVerifiedVoteHash ++ o2.gossipVerifiedVoteHash
    clusterConfirmedSlots := o1.clusterConfirmedSlots ++ o2.clusterConfirmedSlots
    optimisticallyConfirmedSent :=
      o1.optimisticallyConfirmedSent ++ o2.optimisticallyConfirmedSent
    verifiedVotes := o1.verifiedVotes ++ o2.verifiedVotes
    notifiedVotes := o1.notifiedVotes ++ o2.notifiedVotes }

/-- The scratch map diff of filter_and_confirm_with_new_votes: slot to
(pubkey to seen-in-gossip), as an association list. -/
abbrev Diff := List (Nat × List (Nat × Bool))

/-- Association-list lookup (HashMap::get). -/
def alookup {α : Type} : List (Nat × α) → Nat → Option α
  | [], _ => none
  | (k, v) :: t, key => if k = key then some v else alookup t key

/-- Association-list insert replacing an existing binding
(HashMap::insert). -/
def assoc_insert {α : Type} : List (Nat × α) → Nat → α → List (Nat × α)
  | [], key, v => [(key, v)]
  | (k, w) :: t, key, v =>
    if k = key then (k, v) :: t else (k, w) :: assoc_insert t key v

/-- diff[slot].entry(pubkey).and_modify(or-with is_gossip).or_insert
(src lines 771-777), inner map. -/
def diff_entry_update : List (Nat × Bool) → Nat → Bool → List (Nat × Bool)
  | [], pk, g => [(pk, g)]
  | (k, b) :: t, pk, g =>
    if k = pk then (k, b || g) :: t else (k, b) :: diff_entry_update t pk g

/-- diff.entry(slot).or_default() then the inner update. -/
def diff_update : Diff → Nat → Nat → Bool → Diff
  | [], slot, pk, g => [(slot, [(pk, g)])]
  | (s, m) :: t, slot, pk, g =>
    if s = slot then (s, diff_entry_update m pk g) :: t
    else (s, m) :: diff_update t slot pk g

/-- The mutable state threaded through
track_new_votes_and_notify_confirmations and
filter_and_confirm_with_new_votes: the tracker, the scratch diff, the
new-optimistic-confirmed list and the messages sent so far. -/
structure TrackState where
  vt : VoteTracker
  diff : Diff
  newOptimistic : List (Nat × Nat)
  out : Outputs

/-- The slot loop of track_new_votes_and_notify_confirmations
(src lines 697-778), over the vote's slots above the root in reverse
order, with the early return of lines 755-766 (a replay-origin vote
whose tip voter was already present stops the whole function,
skipping the trailing notification of lines 780-783). -/
def track_loop (vote : Vote) (votePubkey lastVoteSlot lastVoteHash : Nat)
    (isGossipVote : Bool) (rootBank : Bank) :
    List Nat → TrackState → Bool → TrackState
  | [], st, isNewVote =>
    if isNewVote then
      { st with out := { st.out with
          notifiedVotes := st.out.notifiedVotes ++ [vote]
          verifiedVotes := st.out.verifiedVotes ++ [(votePubkey, vote.slots)] } }
    else st
  | slot :: rest, st, isNewVote =>
    match rootBank.epochStakes (rootBank.epochSchedule slot) with
    | none =>
      track_loop vote votePubkey lastVoteSlot lastVoteHash isGossipVote rootBank
        rest st isNewVote
    | some epochStakes =>
      if slot = lastVoteSlot then
        let stake := (epochStakes.voteAccounts votePubkey).getD 0
        let totalStake := epochStakes.totalStake
        let r := track_optimistic_confirmation_vote st.vt lastVoteSlot lastVoteHash
          votePubkey stake totalStake
        let results := r.1.1
        let isNew := r.1.2
        let out1 :=
          if isGossipVote && isNew && decide (0 < stake) then
            { st.out with gossipVerifiedVoteHash :=
                st.out.gossipVerifiedVoteHash ++ [(votePubkey, lastVoteSlot, lastVoteHash)] }
          else st.out
        let out2 :=
          if results.getD 0 false then
            { out1 with clusterConfirmedSlots :=
                out1.clusterConfirmedSlots ++ [[(lastVoteSlot, lastVoteHash)]] }
          else out1
        let newOpt2 :=
          if results.getD 1 false then st.newOptimistic ++ [(lastVoteSlot, lastVoteHash)]
          else st.newOptimistic
        let out3 :=
          if results.getD 1 false then
            { out2 with optimisticallyConfirmedSent :=
                out2.optimisticallyConfirmedSent ++ [lastVoteSlot] }
          else out2
        if !isNew && !isGossipVote then
          { vt := r.2, diff := st.diff, newOptimistic := newOpt2, out := out3 }
        else
          track_loop vote votePubkey lastVoteSlot lastVoteHash isGossipVote rootBank
            rest
            { vt := r.2, diff := diff_update st.diff slot votePubkey isGossipVote,
              newOptimistic := newOpt2, out := out3 }
            isNew
      else
        track_loop vote votePubkey lastVoteSlot lastVoteHash isGossipVote rootBank
          rest
          { st with diff := diff_update st.diff slot votePubkey isGossipVote }
          isNewVote

/-- src lines 673-784: track_new_votes_and_notify_confirmations;
returns immediately on an empty slot list, else runs the slot loop on
the slots above the root in reverse order. -/
def track_new_votes_and_notify_confirmations (vote : Vote) (votePubkey : Nat)
    (rootBank : Bank) (isGossipVote : Bool) (st : TrackState) : TrackState :=
  match vote.slots.getLast? with
  | none => st
  | some lastVoteSlot =>
    let root := rootBank.slot
    track_loop vote votePubkey lastVoteSlot vote.hash isGossipVote rootBank
      ((vote.slots.filter fun s => decide (root < s)).reverse) st false

/-- src lines 786-817: filter_gossip_votes; a gossip vote is kept only
when it has slots, the tracker knows an authorized voter for the vote
account at the tip slot's epoch, and the transaction is signed by that
authorized voter. -/
def filter_gossip_votes (vt : VoteTracker) (votePubkey : Nat) (vote : Vote)
    (gossipTx : Transaction) : Bool :=
  match vote.slots.getLast? with
  | none => false
  | some lastVoteSlot =>
    match get_authorized_voter vt votePubkey lastVoteSlot with
    | none => false
    | some actualAuthorizedVoter =>
      vote_contains_authorized_voter gossipTx actualAuthorizedVoter

/-- The merged vote stream of filter_and_confirm_with_new_votes
(src lines 834-859): gossip transactions first (parsed and filtered
lazily against the current tracker, as the Rust iterator chain does),
then the replayed votes; each retained vote is processed by
track_new_votes_and_notify_confirmations. -/
def process_vote_items (rootBank : Bank) :
    List (Transaction ⊕ (Nat × Vote × Option Nat)) → TrackState → TrackState
  | [], st => st
  | Sum.inl gossipTx :: rest, st =>
    (match parse_vote_transaction gossipTx with
    | some pv =>
      if filter_gossip_votes st.vt pv.1 pv.2.1 gossipTx then
        process_vote_items rootBank rest
          (track_new_votes_and_notify_confirmations pv.2.1 pv.1 rootBank true st)
      else process_vote_items rootBank rest st
    | none => process_vote_items rootBank rest st)
  | Sum.inr rv :: rest, st =>
    process_vote_items rootBank rest
      (track_new_votes_and_notify_confirmations rv.2.1 rv.1 rootBank false st)

/-- One iteration of the per-slot fold (src lines 885-905): if the
pubkey was seen in gossip above, add its stake to the local
gossip-only sum; record the gossip bit in voted and append the pubkey
to voted_slot_updates. -/
def fold_voter_entry (epochStakes : Option EpochStakes) (acc : Nat × SlotVoteTracker)
    (e : Nat × Bool) : Nat × SlotVoteTracker :=
  (if e.2 then sum_stake acc.1 epochStakes e.1 else acc.1,
    { acc.2 with
      voted := assoc_insert acc.2.voted e.1 e.2
      votedSlotUpdates := some ((acc.2.votedSlotUpdates.getD []) ++ [e.1]) })

/-- The per-slot fold of the scratch diff into the tracker
(src lines 862-908): keep only pubkeys that are new for the slot or
newly seen in gossip, add the stake of newly-gossip-seen pubkeys to
gossip_only_stake, record each kept pubkey's gossip bit in voted and
append it to voted_slot_updates. -/
def fold_slot_diff (rootBank : Bank) (vt : VoteTracker) (slot : Nat)
    (slotDiff : List (Nat × Bool)) : VoteTracker :=
  let p := get_or_insert_slot_tracker vt slot
  let st0 := p.1
  let retained := slotDiff.filter fun e =>
    let seenInGossipPreviously := alookup st0.voted e.1
    seenInGossipPreviously.isNone ||
      (!(seenInGossipPreviously.getD false) && e.2)
  let st1 :=
    if st0.votedSlotUpdates.isNone then { st0 with votedSlotUpdates := some [] } else st0
  let epochStakes := rootBank.epochStakes (rootBank.epochSchedule slot)
  let folded := retained.foldl (fold_voter_entry epochStakes) ((0 : Nat), st1)
  set_slot_tracker p.2 slot
    { folded.2 with gossipOnlyStake := folded.2.gossipOnlyStake + folded.1 }

/-- src lines 819-910: filter_and_confirm_with_new_votes; processes the
gossip batch then the replay batch through the track loop, then folds
the accumulated diff into the tracker slot by slot. Returns the final
tracker, the consumed diff, the new optimistic-confirmed (slot, hash)
list (the function's Rust return value) and the messages sent. -/
def filter_and_confirm_with_new_votes (vt : VoteTracker)
    (gossipVoteTxs : List Transaction) (replayedVotes : List (Nat × Vote × Option Nat))
    (rootBank : Bank) : TrackState :=
  let st := process_vote_items rootBank
    (gossipVoteTxs.map Sum.inl ++ replayedVotes.map Sum.inr)
    { vt := vt, diff := [], newOptimistic := [], out := emptyOutputs }
  { st with vt := st.diff.foldl (fun v e => fold_slot_diff rootBank v e.1 e.2) st.vt }

/-- src lines 392-429: verify_votes; the discard predicate stands for
the result of ed25519 batch verification (external to src/) on the
one-transaction packet chunks. A transaction is kept, paired with its
metadata, when it parses as a vote with a non-empty slot list, its
packet is not discarded, and it has a first signature. -/
def verify_votes (discard : Transaction → Bool) (votes : List Transaction) :
    List Transaction × List VerifiedVoteMetadata :=
  let msgs := votes.map fun tx => ({ source := tx, discard := discard tx } : Packet)
  let pairs := (votes.zip msgs).filterMap fun vp =>
    match parse_vote_transaction vp.1 with
    | none => none
    | some pv =>
      if pv.2.1.slots.isEmpty then none
      else if !vp.2.discard then
        match vp.1.signatures.head? with
        | some signature =>
          some (vp.1,
            { voteAccountKey := pv.1, vote := pv.2.1, packet := vp.2,
              signature := signature })
        | none => none
      else none
  pairs.unzip

/-- One iteration of the ready/drain loop of listen_and_confirm_votes:
what the two try_iter drains yield after the select reports readiness,
and how many milliseconds the iteration took. -/
structure Wakeup where
  gossip : List Transaction
  replay : List (Nat × Vote × Option Nat)
  elapsedMs : Nat

/-- src lines 622-670: listen_and_confirm_votes over an explicit trace
of wakeups. Each wakeup drains both channels; a non-empty drain runs
filter_and_confirm_with_new_votes and returns its result, an empty
drain debits the elapsed time (at least 1 ms) from the remaining wait
budget and retries; an exhausted budget returns the empty batch, and a
select timeout with budget left (no further wakeup) is the
ReadyTimeout error, rendered as none. -/
def listen_and_confirm_votes (vt : VoteTracker) (rootBank : Bank) :
    List Wakeup → Nat → Option (List (Nat × Nat) × VoteTracker × Outputs)
  | _, 0 => some ([], vt, emptyOutputs)
  | [], _ + 1 => none
  | w :: rest, b + 1 =>
    if w.gossip.isEmpty && w.replay.isEmpty then
      listen_and_confirm_votes vt rootBank rest (b + 1 - max w.elapsedMs 1)
    else
      let st := filter_and_confirm_with_new_votes vt w.gossip w.replay rootBank
      some (st.newOptimistic, st.vt, st.out)

/-- The total wait-budget debit a sequence of empty wakeups causes in
listen_and_confirm_votes (each iteration debits its elapsed time, at
least 1 ms). -/
def listen_debit (ws : List Wakeup) : Nat := (ws.map fun w => max w.elapsedMs 1).sum

/-- A processor-thread step visible to the trackers: either one
filter-and-confirm batch against a root bank, or a root progress
(spec 4.G step 3). -/
inductive Op where
  | batch : List Transaction → List (Nat × Vote × Option Nat) → Bank → Op
  | newRoot : Bank → Op

/-- The root bank an operation runs against. -/
def Op.bank : Op → Bank
  | .batch _ _ b => b
  | .newRoot b => b

/-- A run of the processor thread over a trace of operations,
collecting every message sent. -/
def run_ops (vt : VoteTracker) : List Op → VoteTracker × Outputs
  | [] => (vt, emptyOutputs)
  | Op.batch g rvs b :: rest =>
    let st := filter_and_confirm_with_new_votes vt g rvs b
    let r := run_ops st.vt rest
    (r.1, appendOutputs st.out r.2)
  | Op.newRoot b :: rest =>
    run_ops (progress_with_new_root_bank vt b) rest

/-- One call of track_optimistic_confirmation_vote in a run. -/
structure TocCall where
  slot : Nat
  hash : Nat
  pubkey : Nat
  stake : Nat
  totalEpochStake : Nat

/-- The (slot, hash, threshold-index) crossing events a subscriber
reads off one track_optimistic_confirmation_vote result. -/
def toc_fires (slot hash : Nat) (results : List Bool) : List (Nat × Nat × Nat) :=
  (results.enum.filter fun ib => ib.2).map fun ib => (slot, hash, ib.1)

/-- A run of track_optimistic_confirmation_vote calls; the second
component records one (slot, hash, threshold-index) event for every
threshold reported crossed by a call. -/
def run_toc (vt : VoteTracker) : List TocCall → VoteTracker × List (Nat × Nat × Nat)
  | [] => (vt, [])
  | c :: rest =>
    let r := track_optimistic_confirmation_vote vt c.slot c.hash c.pubkey c.stake
      c.totalEpochStake
    let rec' := run_toc r.2 rest
    (rec'.1, toc_fires c.slot c.hash r.1.1 ++ rec'.2)

/-- The VoteStakeTracker currently stored for a (slot, hash) pair (the
empty one when the slot or hash has no tracker yet). -/
def vstOf (vt : VoteTracker) (slot hash : Nat) : VoteStakeTracker :=
  (((vt.slotVoteTrackers slot).getD newSlotVoteTracker).optimisticVotesTracker hash).getD
    newVoteStakeTracker

/-- The thresholds already recorded as crossed for a (slot, hash) pair
in the tracker (empty when the slot or hash has no tracker). -/
def crossedOf (vt : VoteTracker) (slot hash : Nat) : List Nat :=
  (vstOf vt slot hash).thresholdsCrossed

/-- The voters recorded in the (slot, hash) VoteStakeTracker. -/
def vstVotedOf (vt : VoteTracker) (slot hash : Nat) : List Nat :=
  (vstOf vt slot hash).voted

/-- The stake the root bank assigns to a pubkey at a slot's epoch
(0 when the epoch or the vote account is unknown); the value sum_stake
adds for that pubkey. -/
def stakeOf (rootBank : Bank) (slot pubkey : Nat) : Nat :=
  match rootBank.epochStakes (rootBank.epochSchedule slot) with
  | none => 0
  | some es => (es.voteAccounts pubkey).getD 0

/-- The total stake of the voters whose voted entry is true, under the
root bank's stakes for the slot's epoch. -/
def gossipTrueStake (rootBank : Bank) (slot : Nat) (voted : List (Nat × Bool)) : Nat :=
  (voted.map fun e => if e.2 then stakeOf rootBank slot e.1 else 0).sum

/-- The scratch diff has an entry for (slot, pubkey). -/
def DiffHas (d : Diff) (slot pubkey : Nat) : Prop :=
  ∃ m, alookup d slot = some m ∧ (alookup m pubkey).isSome

/-- Every per-slot map of the scratch diff has duplicate-free pubkeys
(as a Rust HashMap has by construction). -/
def DiffInnerND (d : Diff) : Prop := ∀ p ∈ d, (p.2.map Prod.fst).Nodup

/-- The slot's tracker exists and records the voter as seen in gossip
(voted[pubkey] = true). -/
def VotedTrue (vt : VoteTracker) (slot pubkey : Nat) : Prop :=
  ∃ st, vt.slotVoteTrackers slot = some st ∧ alookup st.voted pubkey = some true

/-- The gossip-only-stake accounting invariant, relative to a root
bank: every existing slot tracker has duplicate-free voted pubkeys and
its gossip_only_stake equals the summed stake of the voters whose
first sighting was via gossip (voted = true). -/
def GosInv (rootBank : Bank) (vt : VoteTracker) : Prop :=
  ∀ slot st, vt.slotVoteTrackers slot = some st →
    (st.voted.map Prod.fst).Nodup ∧
    st.gossipOnlyStake = gossipTrueStake rootBank slot st.voted

/-- A run of filter-and-confirm batches against a fixed root bank
(gossip transactions paired with replayed votes), keeping only the
resulting tracker. -/
def run_batches (rootBank : Bank) (vt : VoteTracker) :
    List (List Transaction × List (Nat × Vote × Option Nat)) → VoteTracker
  | [] => vt
  | b :: rest =>
    run_batches rootBank (filter_and_confirm_with_new_votes vt b.1 b.2 rootBank).vt rest

/-! Concrete fixtures used by witness and counterexample theorems. -/

/-- A tracker with no slot entries, authorized voters known for epoch 0
(vote account pk authorizes pk + 50), epochs 0, every slot in epoch 0. -/
def wVt : VoteTracker :=
  { slotVoteTrackers := fun _ => none
    epochAuthorizedVoters := fun e =>
      if e = 0 then some (fun pk => some (pk + 50)) else none
    leaderScheduleEpoch := 0
    currentEpoch := 0
    epochSchedule := fun _ => 0 }

/-- wVt with (empty) slot trackers installed at slots 0 and 5. -/
def wVtSlots : VoteTracker :=
  { wVt with slotVoteTrackers := fun s =>
      if s = 0 then some newSlotVoteTracker
      else if s = 5 then some newSlotVoteTracker else none }

/-- A bank at slot 1, epoch 0 everywhere, ten vote accounts of stake
100 each, total stake 1000. -/
def wBank : Bank :=
  { slot := 1
    epochSchedule := fun _ => 0
    epochStakes := fun e =>
      if e = 0 then
        some { voteAccounts := fun pk => if pk < 10 then some 100 else none
               totalStake := 1000
               authorizedVoters := fun pk => some (pk + 50) }
      else none
    leaderScheduleEpoch := 0 }

/-- wBank moved to slot 10 in epoch 1 (epoch 1 starts at slot 8). -/
def wBankE1 : Bank :=
  { wBank with
    slot := 10
    epochSchedule := fun s => if s < 8 then 0 else 1
    epochStakes := fun e =>
      if e ≤ 1 then
        some { voteAccounts := fun pk => if pk < 10 then some 100 else none
               totalStake := 1000
               authorizedVoters := fun pk => some (pk + 50) }
      else none
    leaderScheduleEpoch := 1 }

/-- A gossip vote transaction of vote account 0 for slots [1] with the
given tip hash, signed by the authorized voter 50. -/
def wGossipTx (hash : Nat) : Transaction :=
  { message := { accountKeys := [50], numRequiredSignatures := 1 }
    signatures := [999]
    parsedVote := some (0, { slots := [1], hash := hash }, none) }

/-- A gossip vote transaction whose only signer 77 is not the
authorized voter of vote account 0. -/
def wBadTx : Transaction :=
  { message := { accountKeys := [77], numRequiredSignatures := 1 }
    signatures := [999]
    parsedVote := some (0, { slots := [1], hash := 7 }, none) }

/-- wBank still at slot 0 (so that a vote for slot 1 is above the
root). -/
def wBankRoot0 : Bank := { wBank with slot := 0 }

/-- A VoteStakeTracker already holding voter 0 with stake 100. -/
def wVst : VoteStakeTracker := { voted := [0], stake := 100, thresholdsCrossed := [] }

/-- A SlotVoteTracker whose hash-7 VoteStakeTracker is wVst. -/
def wSlotTracker : SlotVoteTracker :=
  { voted := []
    optimisticVotesTracker := fun h => if h = 7 then some wVst else none
    votedSlotUpdates := none
    gossipOnlyStake := 0 }

/-- A tracker whose (slot 1, hash 7) VoteStakeTracker already holds
voter 0 with stake 100. -/
def wVtVoted : VoteTracker :=
  { wVt with slotVoteTrackers := fun s => if s = 1 then some wSlotTracker else none }

/-- The track state holding wVtVoted, with empty diff and no messages
sent. -/
def wStVoted : TrackState :=
  { vt := wVtVoted, diff := [], newOptimistic := [], out := emptyOutputs }

/-- A VoteStakeTracker that has already reported both thresholds. -/
def wVstCrossed : VoteStakeTracker :=
  { voted := [0], stake := 700, thresholdsCrossed := [0, 1] }

/-- A SlotVoteTracker whose hash-7 VoteStakeTracker is wVstCrossed. -/
def wSlotCrossed : SlotVoteTracker :=
  { voted := []
    optimisticVotesTracker := fun h => if h = 7 then some wVstCrossed else none
    votedSlotUpdates := none
    gossipOnlyStake := 0 }

/-- A tracker whose (slot 1, hash 7) pair has both thresholds already
recorded as crossed. -/
def wVtCrossed : VoteTracker :=
  { wVt with slotVoteTrackers := fun s => if s = 1 then some wSlotCrossed else none }

/-- A SlotVoteTracker that has already seen voter 0 via gossip. -/
def wSlotGossipSeen : SlotVoteTracker :=
  { voted := [(0, true)]
    optimisticVotesTracker := fun _ => none
    votedSlotUpdates := none
    gossipOnlyStake := 100 }

/-- A tracker whose slot-1 tracker has already seen voter 0 via
gossip. -/
def wVtGossipSeen : VoteTracker :=
  { wVt with slotVoteTrackers := fun s => if s = 1 then some wSlotGossipSeen else none }

/-- A spurious wakeup: the select reported readiness but both drains
come back empty. -/
def wWakeupEmpty : Wakeup := { gossip := [], replay := [], elapsedMs := 1 }

/-- A wakeup whose replay drain yields one vote of voter 0 for
slots [1] with hash 7. -/
def wWakeupReplay : Wakeup :=
  { gossip := [], replay := [(0, { slots := [1], hash := 7 }, none)], elapsedMs := 1 }

/-- The declarative retention predicate of verify_votes, following the
claim: a transaction is kept exactly when it parses as a vote, the
vote's slot list is non-empty, its packet is not discarded and its
signature list is non-empty. -/
def verify_votes_keep (discard : Transaction → Bool) (tx : Transaction) : Bool :=
  match parse_vote_transaction tx with
  | none => false
  | some pv => !pv.2.1.slots.isEmpty && !discard tx && !tx.signatures.isEmpty

/-- The metadata paired with a retained transaction: its vote account
key and parsed vote, its one-packet chunk and its first signature
(junk values on inputs verify_votes_keep rejects). -/
def verify_votes_meta (discard : Transaction → Bool) (tx : Transaction) :
    VerifiedVoteMetadata :=
  match parse_vote_transaction tx with
  | none =>
    { voteAccountKey := 0, vote := { slots := [], hash := 0 },
      packet := { source := tx, discard := discard tx }, signature := 0 }
  | some pv =>
    { voteAccountKey := pv.1, vote := pv.2.1,
      packet := { source := tx, discard := discard tx },
      signature := tx.signatures.headD 0 }

/-- The fresh track state a filter-and-confirm batch starts from over
the given tracker: empty diff and no messages sent. -/
def startState (vt : VoteTracker) : TrackState :=
  { vt := vt, diff := [], newOptimistic := [], out := emptyOutputs }

/-- The per-step invariant of the gossip-hash bus for a target message
(pk, s, h): a step from st to st' never removes sends, adds at most
one (pk, s, h), leaves the count unchanged when pk is already in the
(s, h) VoteStakeTracker (and then keeps it there), and can only add
one when s is above the root, pk was absent before and is present
after. -/
def KeyInv (bank : Bank) (pk s h : Nat) (st st' : TrackState) : Prop :=
  (pk ∈ vstVotedOf st.vt s h →
      st'.out.gossipVerifiedVoteHash.count (pk, s, h) =
        st.out.gossipVerifiedVoteHash.count (pk, s, h) ∧
      pk ∈ vstVotedOf st'.vt s h) ∧
  st.out.gossipVerifiedVoteHash.count (pk, s, h) ≤
    st'.out.gossipVerifiedVoteHash.count (pk, s, h) ∧
  st'.out.gossipVerifiedVoteHash.count (pk, s, h) ≤
    st.out.gossipVerifiedVoteHash.count (pk, s, h) + 1 ∧
  (st'.out.gossipVerifiedVoteHash.count (pk, s, h) =
      st.out.gossipVerifiedVoteHash.count (pk, s, h) + 1 →
    pk ∈ vstVotedOf st'.vt s h ∧ bank.slot < s ∧ pk ∉ vstVotedOf st.vt s h)

/-! Helper lemmas. -/

theorem progress_lse_slotVoteTrackers (vt : VoteTracker) (b : Bank) :
    (progress_leader_schedule_epoch vt b).slotVoteTrackers = vt.slotVoteTrackers := rfl

theorem progress_lse_currentEpoch (vt : VoteTracker) (b : Bank) :
    (progress_leader_schedule_epoch vt b).currentEpoch = vt.currentEpoch := rfl

theorem purge_slotVoteTrackers (vt : VoteTracker) (b : Bank) :
    (purge_stale_state vt b).slotVoteTrackers =
      fun s => if b.slot ≤ s then vt.slotVoteTrackers s else none := by
  by_cases hc : b.epoch ≠ vt.currentEpoch <;> simp [purge_stale_state, hc]

theorem purge_epochAuthorizedVoters (vt : VoteTracker) (b : Bank) :
    (purge_stale_state vt b).epochAuthorizedVoters =
      if b.epoch ≠ vt.currentEpoch then
        (fun e => if b.epoch ≤ e then vt.epochAuthorizedVoters e else none)
      else vt.epochAuthorizedVoters := by
  by_cases hc : b.epoch ≠ vt.currentEpoch <;> simp [purge_stale_state, hc]

theorem purge_currentEpoch (vt : VoteTracker) (b : Bank) :
    (purge_stale_state vt b).currentEpoch =
      if b.epoch ≠ vt.currentEpoch then b.epoch else vt.currentEpoch := by
  by_cases hc : b.epoch ≠ vt.currentEpoch <;> simp [purge_stale_state, hc]

theorem zip_self_map {α β : Type} (l : List α) (g : α → β) :
    l.zip (l.map g) = l.map fun a => (a, g a) := by
  induction l with
  | nil => rfl
  | cons a t ih => simp [ih]

theorem unzip_filterMap {α β γ : Type} (f : α → Option (β × γ)) (keep : α → Bool)
    (fst : α → β) (m : α → γ)
    (hf : ∀ a, f a = if keep a then some (fst a, m a) else none) (l : List α) :
    (l.filterMap f).unzip =
      ((l.filter keep).map fst, (l.filter keep).map m) := by
  induction l with
  | nil => rfl
  | cons a t ih =>
    rw [List.filterMap_cons, List.filter_cons, hf a]
    by_cases h : keep a = true <;> simp [h, ih]

theorem verify_votes_characterization (discard : Transaction → Bool)
    (votes : List Transaction) :
    verify_votes discard votes =
      (votes.filter (verify_votes_keep discard),
        (votes.filter (verify_votes_keep discard)).map (verify_votes_meta discard)) := by
  unfold verify_votes
  dsimp only
  rw [zip_self_map, List.filterMap_map]
  have hpair :
      ∀ tx : Transaction,
        ((fun vp : Transaction × Packet =>
          match parse_vote_transaction vp.1 with
          | none => none
          | some pv =>
            if pv.2.1.slots.isEmpty then none
            else if !vp.2.discard then
              match vp.1.signatures.head? with
              | some signature =>
                some (vp.1,
                  ({ voteAccountKey := pv.1
                     vote := pv.2.1
                     packet := vp.2
                     signature := signature } : VerifiedVoteMetadata))
              | none => none
            else none) ∘ fun tx => (tx, ({ source := tx, discard := discard tx } : Packet))) tx =
          if verify_votes_keep discard tx then some (tx, verify_votes_meta discard tx)
          else none := by
    intro tx
    simp only [Function.comp]
    cases hp : parse_vote_transaction tx with
    | none => simp [verify_votes_keep, hp]
    | some pv =>
      cases hs : pv.2.1.slots with
      | nil => simp [verify_votes_keep, hp, hs]
      | cons s srest =>
        cases hd : discard tx with
        | true => simp [verify_votes_keep, verify_votes_meta, hp, hs, hd]
        | false =>
          cases hsig : tx.signatures with
          | nil => simp [verify_votes_keep, verify_votes_meta, hp, hs, hd, hsig]
          | cons sg sgrest => simp [verify_votes_keep, verify_votes_meta, hp, hs, hd, hsig]
  rw [unzip_filterMap _ (verify_votes_keep discard) id (verify_votes_meta discard)
    (by intro a; simpa using hpair a) votes]
  simp

theorem exists_append_of_getLast? (l : List Nat) :
    ∀ a : Nat, l.getLast? = some a → ∃ t, l = t ++ [a] := by
  induction l with
  | nil => intro a h; exact absurd h (by simp)
  | cons x xs ih =>
    intro a h
    cases xs with
    | nil =>
      simp at h
      exact ⟨[], by simp [h]⟩
    | cons y ys =>
      rw [List.getLast?_cons_cons] at h
      obtain ⟨t, ht⟩ := ih a h
      exact ⟨x :: t, by simp [ht]⟩

theorem filter_reverse_tip (slots : List Nat) (tip root : Nat)
    (h : slots.getLast? = some tip) (hr : root < tip) :
    ∃ rest, (slots.filter fun s => decide (root < s)).reverse = tip :: rest := by
  obtain ⟨t, rfl⟩ := exists_append_of_getLast? slots tip h
  rw [List.filter_append]
  refine ⟨(t.filter fun s => decide (root < s)).reverse, ?_⟩
  simp [hr]

theorem toc_result_of_mem (vt : VoteTracker) (slot hash pubkey stake total : Nat)
    (hmem : pubkey ∈ vstVotedOf vt slot hash) :
    (track_optimistic_confirmation_vote vt slot hash pubkey stake total).1 =
      ([false, false], false) := by
  unfold track_optimistic_confirmation_vote get_or_insert_slot_tracker
  cases h : vt.slotVoteTrackers slot with
  | none =>
    exfalso
    rw [vstVotedOf, vstOf, h] at hmem
    simp [newSlotVoteTracker, newVoteStakeTracker] at hmem
  | some st0 =>
    dsimp only
    rw [vstVotedOf, vstOf, h] at hmem
    simp only [Option.getD_some] at hmem
    unfold add_vote_pubkey
    rw [if_pos hmem]
    rfl

theorem alookup_dEU_self_isSome (m : List (Nat × Bool)) (pk : Nat) (g : Bool) :
    (alookup (diff_entry_update m pk g) pk).isSome := by
  induction m with
  | nil => simp [diff_entry_update, alookup]
  | cons e t ih =>
    obtain ⟨k, b⟩ := e
    unfold diff_entry_update
    by_cases hk : k = pk
    · simp [hk, alookup]
    · simp only [hk, if_false]
      unfold alookup
      simp [hk, ih]

theorem alookup_dEU_mono (m : List (Nat × Bool)) (pk : Nat) (g : Bool) (q : Nat)
    (h : (alookup m q).isSome) : (alookup (diff_entry_update m pk g) q).isSome := by
  induction m with
  | nil => simp [alookup] at h
  | cons e t ih =>
    obtain ⟨k, b⟩ := e
    unfold diff_entry_update
    by_cases hk : k = pk
    · rw [if_pos hk]
      unfold alookup at h ⊢
      by_cases hq : k = q
      · simp [hq]
      · rw [if_neg hq] at h ⊢
        exact h
    · rw [if_neg hk]
      unfold alookup at h ⊢
      by_cases hq : k = q
      · simp [hq]
      · rw [if_neg hq] at h ⊢
        exact ih h

theorem DiffHas_diff_update_self (d : Diff) (slot pk : Nat) (g : Bool) :
    DiffHas (diff_update d slot pk g) slot pk := by
  induction d with
  | nil =>
    exact ⟨[(pk, g)], by simp [diff_update, alookup], by simp [alookup]⟩
  | cons e t ih =>
    obtain ⟨s, m⟩ := e
    unfold diff_update
    by_cases hs : s = slot
    · subst hs
      exact ⟨diff_entry_update m pk g, by simp [alookup], alookup_dEU_self_isSome m pk g⟩
    · simp only [hs, if_false]
      obtain ⟨m', hm', hq⟩ := ih
      exact ⟨m', by simp [alookup, hs, hm'], hq⟩

theorem DiffHas_diff_update_mono (d : Diff) (slot pk : Nat) (g : Bool) (s q : Nat)
    (h : DiffHas d s q) : DiffHas (diff_update d slot pk g) s q := by
  induction d with
  | nil => simp [DiffHas, alookup] at h
  | cons e t ih =>
    obtain ⟨k, m⟩ := e
    obtain ⟨m', hm', hq⟩ := h
    unfold diff_update
    by_cases hk : k = slot
    · rw [if_pos hk]
      unfold alookup at hm'
      by_cases hks : k = s
      · rw [if_pos hks] at hm'
        obtain rfl : m = m' := by injection hm'
        refine ⟨diff_entry_update m pk g, ?_, alookup_dEU_mono m pk g q hq⟩
        unfold alookup
        rw [if_pos hks]
      · rw [if_neg hks] at hm'
        refine ⟨m', ?_, hq⟩
        unfold alookup
        rw [if_neg hks]
        exact hm'
    · rw [if_neg hk]
      unfold alookup at hm'
      by_cases hks : k = s
      · rw [if_pos hks] at hm'
        obtain rfl : m = m' := by injection hm'
        refine ⟨m, ?_, hq⟩
        unfold alookup
        rw [if_pos hks]
      · rw [if_neg hks] at hm'
        obtain ⟨m2, hm2, hq2⟩ := ih ⟨m', hm', hq⟩
        refine ⟨m2, ?_, hq2⟩
        unfold alookup
        rw [if_neg hks]
        exact hm2

theorem track_loop_diff_gossip (vote : Vote) (pk tip hash : Nat) (bank : Bank)
    (slots : List Nat) :
    ∀ (st : TrackState) (isNewVote : Bool),
      (∀ s q, DiffHas st.diff s q →
        DiffHas (track_loop vote pk tip hash true bank slots st isNewVote).diff s q) ∧
      (∀ s ∈ slots, (bank.epochStakes (bank.epochSchedule s)).isSome →
        DiffHas (track_loop vote pk tip hash true bank slots st isNewVote).diff s pk) := by
  induction slots with
  | nil =>
    intro st isNewVote
    constructor
    · intro s q h
      unfold track_loop
      cases isNewVote <;> simpa using h
    · intro s hs
      exact absurd hs (by simp)
  | cons slot rest ih =>
    intro st isNewVote
    have hstep : ∀ st' isNew',
        (∀ s q, DiffHas st'.diff s q →
          DiffHas (track_loop vote pk tip hash true bank rest st' isNew').diff s q) ∧
        (∀ s ∈ rest, (bank.epochStakes (bank.epochSchedule s)).isSome →
          DiffHas (track_loop vote pk tip hash true bank rest st' isNew').diff s pk) :=
      fun st' isNew' => ih st' isNew'
    unfold track_loop
    cases hes : bank.epochStakes (bank.epochSchedule slot) with
    | none =>
      constructor
      · intro s q h
        exact (hstep st isNewVote).1 s q h
      · intro s hs hsome
        rcases List.mem_cons.mp hs with rfl | hmem
        · rw [hes] at hsome; exact absurd hsome (by simp)
        · exact (hstep st isNewVote).2 s hmem hsome
    | some es =>
      dsimp only
      by_cases hslot : slot = tip
      · rw [if_pos hslot]
        simp only [Bool.not_true, Bool.and_false, Bool.false_eq_true, if_false]
        constructor
        · intro s q h
          refine (hstep _ _).1 s q ?_
          exact DiffHas_diff_update_mono st.diff slot pk true s q h
        · intro s hs hsome
          rcases List.mem_cons.mp hs with rfl | hmem
          · refine (hstep _ _).1 s pk ?_
            exact DiffHas_diff_update_self st.diff s pk true
          · exact (hstep _ _).2 s hmem hsome
      · rw [if_neg hslot]
        constructor
        · intro s q h
          refine (hstep _ _).1 s q ?_
          exact DiffHas_diff_update_mono st.diff slot pk true s q h
        · intro s hs hsome
          rcases List.mem_cons.mp hs with rfl | hmem
          · refine (hstep _ _).1 s pk ?_
            exact DiffHas_diff_update_self st.diff s pk true
          · exact (hstep _ _).2 s hmem hsome

theorem toc_vstOf (vt : VoteTracker) (slot hash pubkey stake total : Nat) :
    (∀ s h, ¬(s = slot ∧ h = hash) →
      vstOf (track_optimistic_confirmation_vote vt slot hash pubkey stake total).2 s h =
        vstOf vt s h) ∧
    vstOf (track_optimistic_confirmation_vote vt slot hash pubkey stake total).2 slot hash =
      (add_vote_pubkey (vstOf vt slot hash) pubkey stake total THRESHOLDS_TO_CHECK).2 ∧
    (track_optimistic_confirmation_vote vt slot hash pubkey stake total).1 =
      (add_vote_pubkey (vstOf vt slot hash) pubkey stake total THRESHOLDS_TO_CHECK).1 := by
  unfold track_optimistic_confirmation_vote get_or_insert_slot_tracker set_slot_tracker
  cases hsl : vt.slotVoteTrackers slot with
  | some st0 =>
    dsimp only
    refine ⟨?_, ?_, ?_⟩
    · intro s h hne
      by_cases hs : s = slot
      · subst hs
        have hh : ¬ h = hash := fun hh => hne ⟨rfl, hh⟩
        simp [vstOf, hh, hsl]
      · simp [vstOf, hs, hsl]
    · simp [vstOf, hsl]
    · simp [vstOf, hsl]
  | none =>
    dsimp only
    refine ⟨?_, ?_, ?_⟩
    · intro s h hne
      by_cases hs : s = slot
      · subst hs
        have hh : ¬ h = hash := fun hh => hne ⟨rfl, hh⟩
        simp [vstOf, hh, hsl, newSlotVoteTracker]
      · simp [vstOf, hs, hsl]
    · simp [vstOf, hsl, newSlotVoteTracker]
    · simp [vstOf, hsl, newSlotVoteTracker]

theorem avp_facts (t : VoteStakeTracker) (pubkey stake total : Nat) :
    ∃ x y : Bool,
      (add_vote_pubkey t pubkey stake total THRESHOLDS_TO_CHECK).1.1 = [x, y] ∧
      (∀ i, i ∈ t.thresholdsCrossed →
        i ∈ (add_vote_pubkey t pubkey stake total THRESHOLDS_TO_CHECK).2.thresholdsCrossed) ∧
      (x = true → 0 ∉ t.thresholdsCrossed ∧
        0 ∈ (add_vote_pubkey t pubkey stake total THRESHOLDS_TO_CHECK).2.thresholdsCrossed) ∧
      (y = true → 1 ∉ t.thresholdsCrossed ∧
        1 ∈ (add_vote_pubkey t pubkey stake total THRESHOLDS_TO_CHECK).2.thresholdsCrossed) := by
  unfold add_vote_pubkey
  by_cases hmem : pubkey ∈ t.voted
  · rw [if_pos hmem]
    exact ⟨false, false, rfl, fun i hi => hi, by simp, by simp⟩
  · rw [if_neg hmem]
    dsimp only
    refine ⟨_, _, rfl, ?_, ?_, ?_⟩
    · intro i hi
      exact List.mem_append_left _ hi
    · intro hx
      have hx' := hx
      simp only [Bool.and_eq_true] at hx'
      refine ⟨of_decide_eq_true hx'.1, List.mem_append_right _ ?_⟩
      have henum : THRESHOLDS_TO_CHECK.enum =
          [(0, DUPLICATE_THRESHOLD), (1, VOTE_THRESHOLD_SIZE)] := rfl
      rw [henum, List.filter_cons, if_pos (by exact hx)]
      simp
    · intro hy
      have hy' := hy
      simp only [Bool.and_eq_true] at hy'
      refine ⟨of_decide_eq_true hy'.1, List.mem_append_right _ ?_⟩
      have henum : THRESHOLDS_TO_CHECK.enum =
          [(0, DUPLICATE_THRESHOLD), (1, VOTE_THRESHOLD_SIZE)] := rfl
      rw [henum, List.filter_cons]
      split
      · rw [List.filter_cons, if_pos (by exact hy)]
        simp
      · rw [List.filter_cons, if_pos (by exact hy)]
        simp

theorem toc_fires_pair (slot hash : Nat) (x y : Bool) :
    toc_fires slot hash [x, y] =
      (if x then [(slot, hash, 0)] else []) ++ (if y then [(slot, hash, 1)] else []) := by
  cases x <;> cases y <;> rfl

theorem toc_facts (vt : VoteTracker) (slot hash pubkey stake total : Nat) :
    ∃ x y : Bool,
      (track_optimistic_confirmation_vote vt slot hash pubkey stake total).1.1 = [x, y] ∧
      (∀ s h i, i ∈ crossedOf vt s h →
        i ∈ crossedOf (track_optimistic_confirmation_vote vt slot hash pubkey stake
          total).2 s h) ∧
      (x = true → 0 ∉ crossedOf vt slot hash ∧
        0 ∈ crossedOf (track_optimistic_confirmation_vote vt slot hash pubkey stake
          total).2 slot hash) ∧
      (y = true → 1 ∉ crossedOf vt slot hash ∧
        1 ∈ crossedOf (track_optimistic_confirmation_vote vt slot hash pubkey stake
          total).2 slot hash) := by
  obtain ⟨hoff, hon, hres⟩ := toc_vstOf vt slot hash pubkey stake total
  obtain ⟨x, y, hxy, hmono, hx, hy⟩ := avp_facts (vstOf vt slot hash) pubkey stake total
  refine ⟨x, y, ?_, ?_, ?_, ?_⟩
  · rw [hres]
    exact hxy
  · intro s h i hi
    by_cases hsh : s = slot ∧ h = hash
    · obtain ⟨rfl, rfl⟩ := hsh
      rw [crossedOf, hon]
      exact hmono i hi
    · rw [crossedOf, hoff s h hsh]
      exact hi
  · intro hxt
    obtain ⟨hnot, hin⟩ := hx hxt
    exact ⟨hnot, by rw [crossedOf, hon]; exact hin⟩
  · intro hyt
    obtain ⟨hnot, hin⟩ := hy hyt
    exact ⟨hnot, by rw [crossedOf, hon]; exact hin⟩

theorem run_toc_mono (calls : List TocCall) :
    ∀ (vt : VoteTracker) (s h i : Nat), i ∈ crossedOf vt s h →
      i ∈ crossedOf (run_toc vt calls).1 s h := by
  induction calls with
  | nil => intro vt s h i hi; exact hi
  | cons c rest ih =>
    intro vt s h i hi
    obtain ⟨x, y, _, hmono, _, _⟩ :=
      toc_facts vt c.slot c.hash c.pubkey c.stake c.totalEpochStake
    exact ih _ s h i (hmono s h i hi)

theorem run_toc_zero (calls : List TocCall) :
    ∀ (vt : VoteTracker) (s h i : Nat), i ∈ crossedOf vt s h →
      ((run_toc vt calls).2.count (s, h, i)) = 0 := by
  induction calls with
  | nil => intro vt s h i _; rfl
  | cons c rest ih =>
    intro vt s h i hi
    obtain ⟨x, y, hxy, hmono, hx, hy⟩ :=
      toc_facts vt c.slot c.hash c.pubkey c.stake c.totalEpochStake
    show (toc_fires c.slot c.hash _ ++ _).count (s, h, i) = 0
    rw [List.count_append, hxy, toc_fires_pair]
    have hrest : ((run_toc (track_optimistic_confirmation_vote vt c.slot c.hash c.pubkey
        c.stake c.totalEpochStake).2 rest).2.count (s, h, i)) = 0 :=
      ih _ s h i (hmono s h i hi)
    rw [hrest, Nat.add_zero, List.count_append]
    have h0 : (if x then [(c.slot, c.hash, 0)] else []).count (s, h, i) = 0 := by
      cases hxv : x
      · rfl
      · rw [if_pos rfl]
        rw [List.count_eq_zero]
        intro hmem
        simp only [List.mem_singleton, Prod.mk.injEq] at hmem
        obtain ⟨rfl, rfl, rfl⟩ := hmem
        exact (hx hxv).1 hi
    have h1 : (if y then [(c.slot, c.hash, 1)] else []).count (s, h, i) = 0 := by
      cases hyv : y
      · rfl
      · rw [if_pos rfl]
        rw [List.count_eq_zero]
        intro hmem
        simp only [List.mem_singleton, Prod.mk.injEq] at hmem
        obtain ⟨rfl, rfl, rfl⟩ := hmem
        exact (hy hyv).1 hi
    rw [h0, h1]

theorem run_toc_le_one (calls : List TocCall) :
    ∀ (vt : VoteTracker) (s h i : Nat), ((run_toc vt calls).2.count (s, h, i)) ≤ 1 := by
  induction calls with
  | nil => intro vt s h i; exact Nat.zero_le 1
  | cons c rest ih =>
    intro vt s h i
    obtain ⟨x, y, hxy, hmono, hx, hy⟩ :=
      toc_facts vt c.slot c.hash c.pubkey c.stake c.totalEpochStake
    show (toc_fires c.slot c.hash _ ++ _).count (s, h, i) ≤ 1
    rw [List.count_append, hxy, toc_fires_pair, List.count_append]
    set vt1 := (track_optimistic_confirmation_vote vt c.slot c.hash c.pubkey c.stake
      c.totalEpochStake).2 with hvt1
    have hcx : (if x then [(c.slot, c.hash, 0)] else []).count (s, h, i) ≤ 1 := by
      cases x
      · exact Nat.zero_le 1
      · rw [if_pos rfl]
        exact List.count_le_length (s, h, i) [(c.slot, c.hash, 0)]
    have hcy : (if y then [(c.slot, c.hash, 1)] else []).count (s, h, i) ≤ 1 := by
      cases y
      · exact Nat.zero_le 1
      · rw [if_pos rfl]
        exact List.count_le_length (s, h, i) [(c.slot, c.hash, 1)]
    by_cases hfired : (s, h, i) ∈
        (if x then [(c.slot, c.hash, 0)] else []) ++ (if y then [(c.slot, c.hash, 1)] else [])
    · have hmemi : i ∈ crossedOf vt1 s h := by
        rcases List.mem_append.mp hfired with hm | hm
        · cases hxv : x
          · rw [hxv] at hm; simp at hm
          · rw [hxv, if_pos rfl] at hm
            simp only [List.mem_singleton, Prod.mk.injEq] at hm
            obtain ⟨rfl, rfl, rfl⟩ := hm
            exact (hx hxv).2
        · cases hyv : y
          · rw [hyv] at hm; simp at hm
          · rw [hyv, if_pos rfl] at hm
            simp only [List.mem_singleton, Prod.mk.injEq] at hm
            obtain ⟨rfl, rfl, rfl⟩ := hm
            exact (hy hyv).2
      have hrest : ((run_toc vt1 rest).2.count (s, h, i)) = 0 :=
        run_toc_zero rest vt1 s h i hmemi
      rw [hrest, Nat.add_zero]
      rcases List.mem_append.mp hfired with hm | hm
      · have : (s, h, i) ∉ (if y then [(c.slot, c.hash, 1)] else []) := by
          intro hmy
          cases hxv : x
          · rw [hxv] at hm; simp at hm
          · cases hyv : y
            · rw [hyv] at hmy; simp at hmy
            · rw [hxv, if_pos rfl] at hm
              rw [hyv, if_pos rfl] at hmy
              simp only [List.mem_singleton, Prod.mk.injEq] at hm hmy
              omega
        rw [List.count_eq_zero.mpr this, Nat.add_zero]
        exact hcx
      · have : (s, h, i) ∉ (if x then [(c.slot, c.hash, 0)] else []) := by
          intro hmx
          cases hxv : x
          · rw [hxv] at hmx; simp at hmx
          · cases hyv : y
            · rw [hyv] at hm; simp at hm
            · rw [hxv, if_pos rfl] at hmx
              rw [hyv, if_pos rfl] at hm
              simp only [List.mem_singleton, Prod.mk.injEq] at hm hmx
              omega
        rw [List.count_eq_zero.mpr this, Nat.zero_add]
        exact hcy
    · have hz : ((if x then [(c.slot, c.hash, 0)] else []) ++
          (if y then [(c.slot, c.hash, 1)] else [])).count (s, h, i) = 0 :=
        List.count_eq_zero.mpr hfired
      rw [List.count_append] at hz
      have hr := ih vt1 s h i
      omega

theorem alookup_assoc_insert_ne {α : Type} (m : List (Nat × α)) (k : Nat) (v : α)
    (q : Nat) (hne : k ≠ q) : alookup (assoc_insert m k v) q = alookup m q := by
  induction m with
  | nil =>
    unfold assoc_insert alookup
    rw [if_neg hne]
    rfl
  | cons e t ih =>
    obtain ⟨k1, v1⟩ := e
    unfold assoc_insert
    by_cases hk : k1 = k
    · rw [if_pos hk]
      have hq : ¬ k1 = q := fun hh => hne (hk ▸ hh)
      unfold alookup
      rw [if_neg hq, if_neg hq]
    · rw [if_neg hk]
      unfold alookup
      by_cases hq : k1 = q
      · rw [if_pos hq, if_pos hq]
      · rw [if_neg hq, if_neg hq]
        exact ih

theorem alookup_none_not_mem {α : Type} (m : List (Nat × α)) (k : Nat) :
    alookup m k = none ↔ k ∉ m.map Prod.fst := by
  induction m with
  | nil => simp [alookup]
  | cons e t ih =>
    obtain ⟨k1, v1⟩ := e
    unfold alookup
    by_cases hq : k1 = k
    · simp [hq]
    · rw [if_neg hq]
      simp only [List.map_cons, List.mem_cons]
      rw [ih]
      constructor
      · intro hnm hor
        rcases hor with hor | hor
        · exact hq hor.symm
        · exact hnm hor
      · intro hnm
        exact fun hm => hnm (Or.inr hm)

theorem assoc_insert_of_none {α : Type} (m : List (Nat × α)) (k : Nat) (v : α)
    (h : alookup m k = none) : assoc_insert m k v = m ++ [(k, v)] := by
  induction m with
  | nil => rfl
  | cons e t ih =>
    obtain ⟨k1, v1⟩ := e
    unfold alookup at h
    by_cases hq : k1 = k
    · rw [if_pos hq] at h
      exact absurd h (by simp)
    · rw [if_neg hq] at h
      unfold assoc_insert
      rw [if_neg hq]
      simp [ih h]

theorem keys_assoc_insert_of_some {α : Type} (m : List (Nat × α)) (k : Nat) (v b : α)
    (h : alookup m k = some b) :
    (assoc_insert m k v).map Prod.fst = m.map Prod.fst := by
  induction m with
  | nil => simp [alookup] at h
  | cons e t ih =>
    obtain ⟨k1, v1⟩ := e
    unfold alookup at h
    unfold assoc_insert
    by_cases hq : k1 = k
    · rw [if_pos hq]
      simp [hq]
    · rw [if_neg hq] at h
      rw [if_neg hq]
      simp [ih h]

theorem gts_cons (bank : Bank) (slot : Nat) (e : Nat × Bool) (m : List (Nat × Bool)) :
    gossipTrueStake bank slot (e :: m) =
      (if e.2 then stakeOf bank slot e.1 else 0) + gossipTrueStake bank slot m := by
  simp [gossipTrueStake]

theorem gts_append (bank : Bank) (slot : Nat) (m1 m2 : List (Nat × Bool)) :
    gossipTrueStake bank slot (m1 ++ m2) =
      gossipTrueStake bank slot m1 + gossipTrueStake bank slot m2 := by
  simp [gossipTrueStake]

theorem gts_promote (bank : Bank) (slot : Nat) (m : List (Nat × Bool)) (k : Nat)
    (h : alookup m k = some false) :
    gossipTrueStake bank slot (assoc_insert m k true) =
      gossipTrueStake bank slot m + stakeOf bank slot k := by
  induction m with
  | nil => simp [alookup] at h
  | cons e t ih =>
    obtain ⟨k1, b⟩ := e
    unfold alookup at h
    unfold assoc_insert
    by_cases hq : k1 = k
    · rw [if_pos hq] at h
      rw [if_pos hq]
      have hb : b = false := Option.some.inj h
      subst hb
      subst hq
      rw [gts_cons, gts_cons]
      simp
      try omega
    · rw [if_neg hq] at h
      rw [if_neg hq]
      rw [gts_cons, gts_cons, ih h]
      omega

theorem sum_stake_stakeOf (bank : Bank) (slot : Nat) (gos k : Nat) :
    sum_stake gos (bank.epochStakes (bank.epochSchedule slot)) k =
      gos + stakeOf bank slot k := by
  unfold sum_stake stakeOf
  cases hes : bank.epochStakes (bank.epochSchedule slot) with
  | none => simp
  | some es =>
    dsimp only
    cases hva : es.voteAccounts k with
    | none => simp [hva]
    | some stake => simp [hva]

theorem toc_tracker_eq (vt : VoteTracker) (slot hash pk stake total : Nat) :
    (track_optimistic_confirmation_vote vt slot hash pk stake total).2.slotVoteTrackers =
      fun s =>
        if s = slot then
          some { (vt.slotVoteTrackers slot).getD newSlotVoteTracker with
                 optimisticVotesTracker := fun h =>
                   if h = hash then
                     some (add_vote_pubkey (vstOf vt slot hash) pk stake total
                       THRESHOLDS_TO_CHECK).2
                   else
                     ((vt.slotVoteTrackers slot).getD
                       newSlotVoteTracker).optimisticVotesTracker h }
        else vt.slotVoteTrackers s := by
  unfold track_optimistic_confirmation_vote get_or_insert_slot_tracker set_slot_tracker
    vstOf
  cases hsl : vt.slotVoteTrackers slot with
  | some st0 =>
    dsimp only
    funext s
    by_cases hs : s = slot <;> simp [hs, hsl]
  | none =>
    dsimp only
    funext s
    by_cases hs : s = slot <;> simp [hs, hsl]

theorem fold_entries_lookup (es : Option EpochStakes) :
    ∀ (entries : List (Nat × Bool)) (gos : Nat) (tr : SlotVoteTracker) (q : Nat),
      (∀ e ∈ entries, e.1 ≠ q) →
      alookup ((entries.foldl (fold_voter_entry es) (gos, tr)).2.voted) q =
        alookup tr.voted q := by
  intro entries
  induction entries with
  | nil => intro gos tr q _; rfl
  | cons e rest ih =>
    intro gos tr q hq
    rw [List.foldl_cons]
    rw [ih _ _ q (fun x hx => hq x (List.mem_cons_of_mem e hx))]
    exact alookup_assoc_insert_ne _ _ _ _ (hq e (List.mem_cons_self e rest))

theorem fold_entries (bank : Bank) (slot : Nat) (es : Option EpochStakes)
    (hes : es = bank.epochStakes (bank.epochSchedule slot)) :
    ∀ (entries : List (Nat × Bool)) (gos : Nat) (tr : SlotVoteTracker),
      (entries.map Prod.fst).Nodup →
      (tr.voted.map Prod.fst).Nodup →
      (∀ e ∈ entries, alookup tr.voted e.1 = none ∨
        (alookup tr.voted e.1 = some false ∧ e.2 = true)) →
      (((entries.foldl (fold_voter_entry es) (gos, tr)).2.voted.map Prod.fst).Nodup ∧
        (entries.foldl (fold_voter_entry es) (gos, tr)).1 +
            gossipTrueStake bank slot tr.voted =
          gos + gossipTrueStake bank slot
            ((entries.foldl (fold_voter_entry es) (gos, tr)).2.voted) ∧
        (entries.foldl (fold_voter_entry es) (gos, tr)).2.gossipOnlyStake =
          tr.gossipOnlyStake) := by
  intro entries
  induction entries with
  | nil =>
    intro gos tr hnd htr _
    exact ⟨htr, by rfl, rfl⟩
  | cons e rest ih =>
    intro gos tr hnd htr hcond
    obtain ⟨pk0, g0⟩ := e
    rw [List.foldl_cons]
    have hself := hcond (pk0, g0) (List.mem_cons_self _ _)
    have hstep : fold_voter_entry es (gos, tr) (pk0, g0) =
        ((if g0 then sum_stake gos es pk0 else gos),
          { tr with
            voted := assoc_insert tr.voted pk0 g0
            votedSlotUpdates := some ((tr.votedSlotUpdates.getD []) ++ [pk0]) }) := rfl
    rw [hstep]
    set tr1 : SlotVoteTracker :=
      { tr with
        voted := assoc_insert tr.voted pk0 g0
        votedSlotUpdates := some ((tr.votedSlotUpdates.getD []) ++ [pk0]) } with htr1
    set gos1 := if g0 then sum_stake gos es pk0 else gos with hgos1
    have hkeys_nd : (tr1.voted.map Prod.fst).Nodup := by
      rcases hself with hnone | ⟨hsome, _⟩
      · rw [htr1]
        dsimp only
        rw [assoc_insert_of_none tr.voted pk0 g0 hnone]
        rw [List.map_append]
        simp only [List.map_cons, List.map_nil]
        rw [List.nodup_append]
        refine ⟨htr, by simp, ?_⟩
        intro a ha hb
        simp only [List.mem_singleton] at hb
        subst hb
        exact (alookup_none_not_mem tr.voted a).mp hnone ha
      · rw [htr1]
        dsimp only
        rw [keys_assoc_insert_of_some tr.voted pk0 g0 _ hsome]
        exact htr
    have hsum : gossipTrueStake bank slot tr1.voted + gos =
        gossipTrueStake bank slot tr.voted + gos1 := by
      rcases hself with hnone | ⟨hsome, hg0⟩
      · rw [htr1]
        dsimp only
        rw [assoc_insert_of_none tr.voted pk0 g0 hnone, gts_append, gts_cons]
        cases hg : g0
        · simp [hgos1, hg, gossipTrueStake]
        · rw [hgos1]
          simp only [hg, if_true]
          rw [hes, sum_stake_stakeOf]
          simp [gossipTrueStake]
          omega
      · subst hg0
        rw [htr1]
        dsimp only
        rw [gts_promote bank slot tr.voted pk0 hsome]
        rw [hgos1]
        simp only [if_true]
        rw [hes, sum_stake_stakeOf]
        omega
    have hcond1 : ∀ e2 ∈ rest, alookup tr1.voted e2.1 = none ∨
        (alookup tr1.voted e2.1 = some false ∧ e2.2 = true) := by
      intro e2 he2
      have hne : pk0 ≠ e2.1 := by
        simp only [List.map_cons, List.nodup_cons] at hnd
        intro hcontra
        exact hnd.1 (hcontra ▸ List.mem_map_of_mem Prod.fst he2)
      rw [htr1]
      dsimp only
      rw [alookup_assoc_insert_ne tr.voted pk0 g0 e2.1 hne]
      exact hcond e2 (List.mem_cons_of_mem _ he2)
    have hnd1 : (rest.map Prod.fst).Nodup := by
      simp only [List.map_cons, List.nodup_cons] at hnd
      exact hnd.2
    obtain ⟨ha, hb, hc⟩ := ih gos1 tr1 hnd1 hkeys_nd hcond1
    refine ⟨ha, ?_, ?_⟩
    · omega
    · rw [hc, htr1]

theorem track_loop_vt_pres (vote : Vote) (pk tip hash : Nat) (g : Bool) (bank : Bank)
    (P : VoteTracker → Prop)
    (hP : ∀ (vt : VoteTracker) (slot2 hash2 pk2 stake total : Nat), P vt →
      P (track_optimistic_confirmation_vote vt slot2 hash2 pk2 stake total).2) :
    ∀ (slots : List Nat) (st : TrackState) (isNewVote : Bool), P st.vt →
      P (track_loop vote pk tip hash g bank slots st isNewVote).vt := by
  intro slots
  induction slots with
  | nil =>
    intro st isNewVote hp
    unfold track_loop
    cases isNewVote
    · exact hp
    · exact hp
  | cons slot rest ih =>
    intro st isNewVote hp
    unfold track_loop
    cases hes : bank.epochStakes (bank.epochSchedule slot) with
    | none => exact ih _ _ hp
    | some es =>
      dsimp only
      by_cases hslot : slot = tip
      · rw [if_pos hslot]
        split
        · exact hP _ _ _ _ _ _ hp
        · exact ih _ _ (hP _ _ _ _ _ _ hp)
      · rw [if_neg hslot]
        exact ih _ _ hp

theorem track_new_votes_vt_pres (bank : Bank) (P : VoteTracker → Prop)
    (hP : ∀ (vt : VoteTracker) (slot2 hash2 pk2 stake total : Nat), P vt →
      P (track_optimistic_confirmation_vote vt slot2 hash2 pk2 stake total).2)
    (vote : Vote) (pk : Nat) (g : Bool) (st : TrackState) (hp : P st.vt) :
    P (track_new_votes_and_notify_confirmations vote pk bank g st).vt := by
  unfold track_new_votes_and_notify_confirmations
  cases hlast : vote.slots.getLast? with
  | none => exact hp
  | some tip =>
    dsimp only
    exact track_loop_vt_pres vote pk tip vote.hash g bank P hP _ _ _ hp

theorem process_vote_items_vt_pres (bank : Bank) (P : VoteTracker → Prop)
    (hP : ∀ (vt : VoteTracker) (slot2 hash2 pk2 stake total : Nat), P vt →
      P (track_optimistic_confirmation_vote vt slot2 hash2 pk2 stake total).2) :
    ∀ (items : List (Transaction ⊕ (Nat × Vote × Option Nat))) (st : TrackState),
      P st.vt → P (process_vote_items bank items st).vt := by
  intro items
  induction items with
  | nil => intro st hp; exact hp
  | cons item rest ih =>
    intro st hp
    unfold process_vote_items
    cases item with
    | inl tx =>
      dsimp only
      cases hp2 : parse_vote_transaction tx with
      | none => exact ih _ hp
      | some pv =>
        dsimp only
        split
        · exact ih _ (track_new_votes_vt_pres bank P hP _ _ _ _ hp)
        · exact ih _ hp
    | inr rv =>
      dsimp only
      exact ih _ (track_new_votes_vt_pres bank P hP _ _ _ _ hp)

theorem track_loop_diff_pres (vote : Vote) (pk tip hash : Nat) (g : Bool) (bank : Bank)
    (Q : Diff → Prop)
    (hQ : ∀ (d : Diff) (slot2 pk2 : Nat) (g2 : Bool), Q d → Q (diff_update d slot2 pk2 g2)) :
    ∀ (slots : List Nat) (st : TrackState) (isNewVote : Bool), Q st.diff →
      Q (track_loop vote pk tip hash g bank slots st isNewVote).diff := by
  intro slots
  induction slots with
  | nil =>
    intro st isNewVote hq
    unfold track_loop
    cases isNewVote
    · exact hq
    · exact hq
  | cons slot rest ih =>
    intro st isNewVote hq
    unfold track_loop
    cases hes : bank.epochStakes (bank.epochSchedule slot) with
    | none => exact ih _ _ hq
    | some es =>
      dsimp only
      by_cases hslot : slot = tip
      · rw [if_pos hslot]
        split
        · exact hq
        · exact ih _ _ (hQ _ _ _ _ hq)
      · rw [if_neg hslot]
        exact ih _ _ (hQ _ _ _ _ hq)

theorem track_new_votes_diff_pres (bank : Bank) (Q : Diff → Prop)
    (hQ : ∀ (d : Diff) (slot2 pk2 : Nat) (g2 : Bool), Q d → Q (diff_update d slot2 pk2 g2))
    (vote : Vote) (pk : Nat) (g : Bool) (st : TrackState) (hq : Q st.diff) :
    Q (track_new_votes_and_notify_confirmations vote pk bank g st).diff := by
  unfold track_new_votes_and_notify_confirmations
  cases hlast : vote.slots.getLast? with
  | none => exact hq
  | some tip =>
    dsimp only
    exact track_loop_diff_pres vote pk tip vote.hash g bank Q hQ _ _ _ hq

theorem process_vote_items_diff_pres (bank : Bank) (Q : Diff → Prop)
    (hQ : ∀ (d : Diff) (slot2 pk2 : Nat) (g2 : Bool), Q d → Q (diff_update d slot2 pk2 g2)) :
    ∀ (items : List (Transaction ⊕ (Nat × Vote × Option Nat))) (st : TrackState),
      Q st.diff → Q (process_vote_items bank items st).diff := by
  intro items
  induction items with
  | nil => intro st hq; exact hq
  | cons item rest ih =>
    intro st hq
    unfold process_vote_items
    cases item with
    | inl tx =>
      dsimp only
      cases hp2 : parse_vote_transaction tx with
      | none => exact ih _ hq
      | some pv =>
        dsimp only
        split
        · exact ih _ (track_new_votes_diff_pres bank Q hQ _ _ _ _ hq)
        · exact ih _ hq
    | inr rv =>
      dsimp only
      exact ih _ (track_new_votes_diff_pres bank Q hQ _ _ _ _ hq)

theorem mem_keys_dEU (m : List (Nat × Bool)) (pk : Nat) (g : Bool) (q : Nat)
    (h : q ∈ (diff_entry_update m pk g).map Prod.fst) : q ∈ m.map Prod.fst ∨ q = pk := by
  induction m with
  | nil =>
    simp [diff_entry_update] at h
    exact Or.inr h
  | cons e t ih =>
    obtain ⟨k, b⟩ := e
    unfold diff_entry_update at h
    by_cases hk : k = pk
    · rw [if_pos hk] at h
      simp only [List.map_cons, List.mem_cons] at h
      simp only [List.map_cons, List.mem_cons]
      exact Or.inl h
    · rw [if_neg hk] at h
      simp only [List.map_cons, List.mem_cons] at h
      simp only [List.map_cons, List.mem_cons]
      rcases h with h | h
      · exact Or.inl (Or.inl h)
      · rcases ih h with h2 | h2
        · exact Or.inl (Or.inr h2)
        · exact Or.inr h2

theorem dEU_keys_nodup (m : List (Nat × Bool)) (pk : Nat) (g : Bool)
    (h : (m.map Prod.fst).Nodup) : ((diff_entry_update m pk g).map Prod.fst).Nodup := by
  induction m with
  | nil => simp [diff_entry_update]
  | cons e t ih =>
    obtain ⟨k, b⟩ := e
    unfold diff_entry_update
    by_cases hk : k = pk
    · rw [if_pos hk]
      simpa using h
    · rw [if_neg hk]
      simp only [List.map_cons, List.nodup_cons] at h ⊢
      refine ⟨?_, ih h.2⟩
      intro hmem
      rcases mem_keys_dEU t pk g k hmem with h2 | h2
      · exact h.1 h2
      · exact hk h2

theorem diff_update_innernd (d : Diff) (slot pk : Nat) (g : Bool)
    (h : DiffInnerND d) : DiffInnerND (diff_update d slot pk g) := by
  induction d with
  | nil =>
    intro p hp
    simp only [diff_update, List.mem_singleton] at hp
    subst hp
    simp
  | cons e t ih =>
    obtain ⟨s, m⟩ := e
    unfold diff_update
    by_cases hs : s = slot
    · rw [if_pos hs]
      intro p hp
      rcases List.mem_cons.mp hp with rfl | hp2
      · exact dEU_keys_nodup m pk g (h (s, m) (List.mem_cons_self _ _))
      · exact h p (List.mem_cons_of_mem _ hp2)
    · rw [if_neg hs]
      intro p hp
      rcases List.mem_cons.mp hp with rfl | hp2
      · exact h (s, m) (List.mem_cons_self _ _)
      · exact ih (fun p2 hp3 => h p2 (List.mem_cons_of_mem _ hp3)) p hp2

theorem gosinv_toc (bank : Bank) (vt : VoteTracker) (slot hash pk stake total : Nat)
    (h : GosInv bank vt) :
    GosInv bank (track_optimistic_confirmation_vote vt slot hash pk stake total).2 := by
  intro s st hst
  simp only [toc_tracker_eq] at hst
  by_cases hs : s = slot
  · rw [if_pos hs] at hst
    obtain rfl := Option.some.inj hst
    subst hs
    cases hsl : vt.slotVoteTrackers s with
    | some st0 => exact h s st0 hsl
    | none => exact ⟨List.nodup_nil, rfl⟩
  · rw [if_neg hs] at hst
    exact h s st hst

theorem toc_voted_eq (vt : VoteTracker) (slot2 hash2 pk2 stake total : Nat) (s : Nat) :
    ((track_optimistic_confirmation_vote vt slot2 hash2 pk2 stake
        total).2.slotVoteTrackers s).map SlotVoteTracker.voted =
      if s = slot2 then some (((vt.slotVoteTrackers slot2).getD newSlotVoteTracker).voted)
      else (vt.slotVoteTrackers s).map SlotVoteTracker.voted := by
  rw [toc_tracker_eq]
  by_cases hs : s = slot2 <;> simp [hs]

theorem votedtrue_toc (vt : VoteTracker) (slot2 hash2 pk2 stake total : Nat)
    (slot pk : Nat) (h : VotedTrue vt slot pk) :
    VotedTrue (track_optimistic_confirmation_vote vt slot2 hash2 pk2 stake total).2
      slot pk := by
  obtain ⟨st, hst, htrue⟩ := h
  have h2 := toc_voted_eq vt slot2 hash2 pk2 stake total slot
  have h3 : ((track_optimistic_confirmation_vote vt slot2 hash2 pk2 stake
      total).2.slotVoteTrackers slot).map SlotVoteTracker.voted = some st.voted := by
    rw [h2]
    by_cases hs : slot = slot2
    · subst hs
      rw [if_pos rfl, hst]
      rfl
    · rw [if_neg hs, hst]
      rfl
  obtain ⟨st1, hst1, hv1⟩ := Option.map_eq_some'.mp h3
  exact ⟨st1, hst1, by rw [hv1]; exact htrue⟩

theorem get_or_insert_fst (vt : VoteTracker) (slot : Nat) :
    (get_or_insert_slot_tracker vt slot).1 =
      (vt.slotVoteTrackers slot).getD newSlotVoteTracker := by
  cases hsl : vt.slotVoteTrackers slot <;> simp [get_or_insert_slot_tracker, hsl]

theorem get_or_insert_snd_lookup (vt : VoteTracker) (slot s : Nat) (hs : ¬ s = slot) :
    (get_or_insert_slot_tracker vt slot).2.slotVoteTrackers s = vt.slotVoteTrackers s := by
  cases hsl : vt.slotVoteTrackers slot <;> simp [get_or_insert_slot_tracker, hsl, hs]

theorem gosinv_fold_slot_diff (bank : Bank) (vt : VoteTracker) (slot : Nat)
    (slotDiff : List (Nat × Bool)) (hnd : (slotDiff.map Prod.fst).Nodup)
    (hinv : GosInv bank vt) : GosInv bank (fold_slot_diff bank vt slot slotDiff) := by
  unfold fold_slot_diff set_slot_tracker
  dsimp only
  intro s st hst
  dsimp only at hst
  by_cases hs : s = slot
  · subst hs
    rw [if_pos rfl] at hst
    obtain rfl := Option.some.inj hst
    dsimp only
    rw [get_or_insert_fst]
    set st0 := (vt.slotVoteTrackers s).getD newSlotVoteTracker with hst0def
    have h0 : (st0.voted.map Prod.fst).Nodup ∧
        st0.gossipOnlyStake = gossipTrueStake bank s st0.voted := by
      cases hsl : vt.slotVoteTrackers s with
      | some stt =>
        have hi := hinv s stt hsl
        rw [hst0def, hsl]
        exact hi
      | none =>
        rw [hst0def, hsl]
        exact ⟨List.nodup_nil, rfl⟩
    set st1 := if st0.votedSlotUpdates.isNone then
        { st0 with votedSlotUpdates := some [] } else st0 with hst1def
    have h1v : st1.voted = st0.voted := by
      rw [hst1def]; split <;> rfl
    have h1g : st1.gossipOnlyStake = st0.gossipOnlyStake := by
      rw [hst1def]; split <;> rfl
    set retained := slotDiff.filter (fun e =>
      (alookup st0.voted e.1).isNone ||
        (!((alookup st0.voted e.1).getD false) && e.2)) with hretdef
    have hrnd : (retained.map Prod.fst).Nodup := by
      rw [hretdef]
      exact List.Nodup.sublist (List.Sublist.map Prod.fst (List.filter_sublist slotDiff))
        hnd
    have hcond : ∀ e ∈ retained, alookup st1.voted e.1 = none ∨
        (alookup st1.voted e.1 = some false ∧ e.2 = true) := by
      intro e he
      rw [hretdef] at he
      have hpred := (List.mem_filter.mp he).2
      rw [h1v]
      cases halk : alookup st0.voted e.1 with
      | none => exact Or.inl rfl
      | some b =>
        rw [halk] at hpred
        simp at hpred
        exact Or.inr ⟨by rw [hpred.1], hpred.2⟩
    obtain ⟨fnd, fsum, fgos⟩ := fold_entries bank s _ rfl retained 0 st1 hrnd
      (by rw [h1v]; exact h0.1) hcond
    refine ⟨fnd, ?_⟩
    have hg : st1.gossipOnlyStake = gossipTrueStake bank s st1.voted := by
      rw [h1g, h1v, h0.2]
    rw [fgos, hg]
    omega
  · rw [if_neg hs] at hst
    rw [get_or_insert_snd_lookup vt slot s hs] at hst
    exact hinv s st hst

theorem votedtrue_fold_slot_diff (bank : Bank) (vt : VoteTracker) (slot2 : Nat)
    (slotDiff : List (Nat × Bool)) (slot pk : Nat) (h : VotedTrue vt slot pk) :
    VotedTrue (fold_slot_diff bank vt slot2 slotDiff) slot pk := by
  obtain ⟨st, hst, htrue⟩ := h
  unfold fold_slot_diff set_slot_tracker
  dsimp only
  by_cases hs : slot = slot2
  · subst hs
    refine ⟨_, if_pos rfl, ?_⟩
    dsimp only
    rw [get_or_insert_fst, hst]
    rw [fold_entries_lookup]
    · have h1v : (if ((some st).getD newSlotVoteTracker).votedSlotUpdates.isNone then
          { (some st).getD newSlotVoteTracker with votedSlotUpdates := some [] }
        else (some st).getD newSlotVoteTracker).voted = st.voted := by
        split <;> rfl
      rw [h1v]
      exact htrue
    · intro e he
      have hpred := (List.mem_filter.mp he).2
      intro hcontra
      rw [hcontra] at hpred
      simp only [Option.getD_some] at hpred
      rw [htrue] at hpred
      simp at hpred
  · refine ⟨st, ?_, htrue⟩
    dsimp only
    rw [if_neg hs]
    rw [get_or_insert_snd_lookup vt slot2 slot hs]
    exact hst

theorem gosinv_diff_foldl (bank : Bank) :
    ∀ (d : Diff) (vt : VoteTracker), GosInv bank vt →
      (∀ p ∈ d, (p.2.map Prod.fst).Nodup) →
      GosInv bank (d.foldl (fun v e => fold_slot_diff bank v e.1 e.2) vt) := by
  intro d
  induction d with
  | nil => intro vt hi _; exact hi
  | cons e t ih =>
    intro vt hi hnd
    rw [List.foldl_cons]
    exact ih _ (gosinv_fold_slot_diff bank vt e.1 e.2 (hnd e (List.mem_cons_self _ _)) hi)
      (fun p hp => hnd p (List.mem_cons_of_mem _ hp))

theorem votedtrue_diff_foldl (bank : Bank) :
    ∀ (d : Diff) (vt : VoteTracker) (slot pk : Nat), VotedTrue vt slot pk →
      VotedTrue (d.foldl (fun v e => fold_slot_diff bank v e.1 e.2) vt) slot pk := by
  intro d
  induction d with
  | nil => intro vt slot pk hv; exact hv
  | cons e t ih =>
    intro vt slot pk hv
    rw [List.foldl_cons]
    exact ih _ slot pk (votedtrue_fold_slot_diff bank vt e.1 e.2 slot pk hv)

theorem gosinv_filter_and_confirm (bank : Bank) (vt : VoteTracker)
    (gtxs : List Transaction) (rvs : List (Nat × Vote × Option Nat))
    (hinv : GosInv bank vt) :
    GosInv bank (filter_and_confirm_with_new_votes vt gtxs rvs bank).vt := by
  unfold filter_and_confirm_with_new_votes
  dsimp only
  refine gosinv_diff_foldl bank _ _ ?_ ?_
  · exact process_vote_items_vt_pres bank (GosInv bank)
      (fun vt2 s2 h2 p2 sk2 t2 hg => gosinv_toc bank vt2 s2 h2 p2 sk2 t2 hg) _ _ hinv
  · exact process_vote_items_diff_pres bank DiffInnerND
      (fun d2 s2 p2 g2 hd => diff_update_innernd d2 s2 p2 g2 hd) _ _
      (fun p hp => absurd hp (List.not_mem_nil p))

theorem votedtrue_filter_and_confirm (bank : Bank) (vt : VoteTracker)
    (gtxs : List Transaction) (rvs : List (Nat × Vote × Option Nat)) (slot pk : Nat)
    (hv : VotedTrue vt slot pk) :
    VotedTrue (filter_and_confirm_with_new_votes vt gtxs rvs bank).vt slot pk := by
  unfold filter_and_confirm_with_new_votes
  dsimp only
  refine votedtrue_diff_foldl bank _ _ slot pk ?_
  exact process_vote_items_vt_pres bank (fun v => VotedTrue v slot pk)
    (fun vt2 s2 h2 p2 sk2 t2 hg => votedtrue_toc vt2 s2 h2 p2 sk2 t2 slot pk hg) _ _ hv

theorem avp_voted (t : VoteStakeTracker) (pk stake total : Nat) (ths : List (Nat × Nat)) :
    (add_vote_pubkey t pk stake total ths).2.voted =
      if pk ∈ t.voted then t.voted else pk :: t.voted := by
  unfold add_vote_pubkey
  split
  · rfl
  · rfl

theorem avp_isNew (t : VoteStakeTracker) (pk stake total : Nat) (ths : List (Nat × Nat)) :
    (add_vote_pubkey t pk stake total ths).1.2 = !decide (pk ∈ t.voted) := by
  unfold add_vote_pubkey
  split
  · simp [decide_eq_true (by assumption)]
  · simp [decide_eq_false (by assumption)]

theorem vstmem_toc (vt : VoteTracker) (slot2 hash2 pk2 stake total : Nat) (q s h : Nat)
    (hq : q ∈ vstVotedOf vt s h) :
    q ∈ vstVotedOf (track_optimistic_confirmation_vote vt slot2 hash2 pk2 stake total).2
      s h := by
  obtain ⟨hoff, hon, _⟩ := toc_vstOf vt slot2 hash2 pk2 stake total
  by_cases hsh : s = slot2 ∧ h = hash2
  · obtain ⟨rfl, rfl⟩ := hsh
    rw [vstVotedOf, hon, avp_voted]
    split
    · exact hq
    · exact List.mem_cons_of_mem _ hq
  · rw [vstVotedOf, hoff s h hsh]
    exact hq

theorem vstmem_toc_self (vt : VoteTracker) (slot hash pk stake total : Nat) :
    pk ∈ vstVotedOf (track_optimistic_confirmation_vote vt slot hash pk stake total).2
      slot hash := by
  obtain ⟨_, hon, _⟩ := toc_vstOf vt slot hash pk stake total
  rw [vstVotedOf, hon, avp_voted]
  split
  · assumption
  · exact List.mem_cons_self _ _

theorem vstvoted_toc_eq_of_mem (vt : VoteTracker) (slot hash pk stake total : Nat)
    (hmem : pk ∈ vstVotedOf vt slot hash) :
    vstVotedOf (track_optimistic_confirmation_vote vt slot hash pk stake total).2 slot
      hash = vstVotedOf vt slot hash := by
  obtain ⟨_, hon, _⟩ := toc_vstOf vt slot hash pk stake total
  rw [vstVotedOf, hon, avp_voted,
    if_pos (show pk ∈ (vstOf vt slot hash).voted from hmem)]
  rfl

theorem toc_isNew_of_not_mem (vt : VoteTracker) (slot hash pk stake total : Nat)
    (hnot : pk ∉ vstVotedOf vt slot hash) :
    (track_optimistic_confirmation_vote vt slot hash pk stake total).1.2 = true := by
  obtain ⟨_, _, hres⟩ := toc_vstOf vt slot hash pk stake total
  rw [hres, avp_isNew]
  simp
  exact hnot

theorem stakeOf_eq (bank : Bank) (slot : Nat) (es : EpochStakes)
    (hes : bank.epochStakes (bank.epochSchedule slot) = some es) (pk : Nat) :
    stakeOf bank slot pk = (es.voteAccounts pk).getD 0 := by
  unfold stakeOf
  rw [hes]

theorem stakeOf_pos_isSome (bank : Bank) (s pk : Nat) (h : 0 < stakeOf bank s pk) :
    (bank.epochStakes (bank.epochSchedule s)).isSome = true := by
  unfold stakeOf at h
  cases hes : bank.epochStakes (bank.epochSchedule s) with
  | none => rw [hes] at h; exact absurd h (by simp)
  | some es => rfl

theorem vstOf_fold_slot_diff (bank : Bank) (vt : VoteTracker) (slot2 : Nat)
    (slotDiff : List (Nat × Bool)) (s h : Nat) :
    vstOf (fold_slot_diff bank vt slot2 slotDiff) s h = vstOf vt s h := by
  unfold fold_slot_diff set_slot_tracker
  dsimp only
  by_cases hs : s = slot2
  · subst hs
    rw [vstOf]
    dsimp only
    rw [if_pos rfl]
    rw [get_or_insert_fst]
    have hopt : ∀ (entries : List (Nat × Bool)) (tr : SlotVoteTracker) (gos : Nat),
        ((entries.foldl (fold_voter_entry (bank.epochStakes (bank.epochSchedule s)))
          (gos, tr)).2).optimisticVotesTracker = tr.optimisticVotesTracker := by
      intro entries
      induction entries with
      | nil => intro tr gos; rfl
      | cons e rest ih =>
        intro tr gos
        rw [List.foldl_cons]
        rw [ih]
        rfl
    rw [Option.getD_some]
    dsimp only
    rw [hopt]
    have hvsu : (if ((vt.slotVoteTrackers s).getD
          newSlotVoteTracker).votedSlotUpdates.isNone = true then
        { (vt.slotVoteTrackers s).getD newSlotVoteTracker with votedSlotUpdates := some [] }
      else (vt.slotVoteTrackers s).getD
        newSlotVoteTracker).optimisticVotesTracker =
        ((vt.slotVoteTrackers s).getD newSlotVoteTracker).optimisticVotesTracker := by
      split <;> rfl
    rw [hvsu]
    rfl
  · rw [vstOf, vstOf]
    dsimp only
    rw [if_neg hs, get_or_insert_snd_lookup vt slot2 s hs]

theorem vstOf_diff_foldl (bank : Bank) :
    ∀ (d : Diff) (vt : VoteTracker) (s h : Nat),
      vstOf (d.foldl (fun v e => fold_slot_diff bank v e.1 e.2) vt) s h = vstOf vt s h := by
  intro d
  induction d with
  | nil => intro vt s h; rfl
  | cons e t ih =>
    intro vt s h
    rw [List.foldl_cons, ih, vstOf_fold_slot_diff]

theorem vstmem_progress (vt : VoteTracker) (b : Bank) (s h pk : Nat)
    (hm : pk ∈ vstVotedOf vt s h) :
    pk ∈ vstVotedOf (progress_with_new_root_bank vt b) s h ∨ s < b.slot := by
  by_cases hs : b.slot ≤ s
  · left
    have heq : (progress_with_new_root_bank vt b).slotVoteTrackers s =
        vt.slotVoteTrackers s := by
      unfold progress_with_new_root_bank
      rw [purge_slotVoteTrackers, progress_lse_slotVoteTrackers]
      simp [hs]
    rw [vstVotedOf, vstOf, heq]
    exact hm
  · right
    omega

theorem track_loop_ghash (vote : Vote) (pk tip hash : Nat) (bank : Bank)
    (slots : List Nat) :
    ∀ (st : TrackState) (isNewVote g : Bool),
      (track_loop vote pk tip hash g bank slots st
          isNewVote).out.gossipVerifiedVoteHash =
        st.out.gossipVerifiedVoteHash ++
          (if g = true ∧ tip ∈ slots ∧
              (bank.epochStakes (bank.epochSchedule tip)).isSome = true ∧
              pk ∉ vstVotedOf st.vt tip hash ∧ 0 < stakeOf bank tip pk
           then [(pk, tip, hash)] else []) := by
  induction slots with
  | nil =>
    intro st isNewVote g
    unfold track_loop
    cases isNewVote <;> simp
  | cons slot rest ih =>
    intro st isNewVote g
    unfold track_loop
    cases hes : bank.epochStakes (bank.epochSchedule slot) with
    | none =>
      dsimp only
      rw [ih]
      by_cases hslot : slot = tip
      · subst hslot
        simp [hes]
      · have hne : ¬ tip = slot := fun hh => hslot hh.symm
        simp [List.mem_cons, hne]
    | some es =>
      dsimp only
      by_cases hslot : slot = tip
      · subst hslot
        rw [if_pos rfl]
        have hstake : stakeOf bank slot pk = (es.voteAccounts pk).getD 0 :=
          stakeOf_eq bank slot es hes pk
        by_cases hmem : pk ∈ vstVotedOf st.vt slot hash
        · have htoc := toc_result_of_mem st.vt slot hash pk
            ((es.voteAccounts pk).getD 0) es.totalStake hmem
          rw [htoc]
          cases hg : g
          · rw [show (!(([false, false], false) :
                (List Bool × Bool)).2 && !false) = true from rfl, if_pos rfl]
            simp [hmem]
          · have heq := vstvoted_toc_eq_of_mem st.vt slot hash pk
              ((es.voteAccounts pk).getD 0) es.totalStake hmem
            rw [show (!(([false, false], false) :
                (List Bool × Bool)).2 && !true) = false from rfl,
              if_neg Bool.false_ne_true]
            rw [ih]
            simp [heq, hmem]
        · have hnew := toc_isNew_of_not_mem st.vt slot hash pk
            ((es.voteAccounts pk).getD 0) es.totalStake hmem
          rw [hnew]
          rw [show (!true && !g) = false from rfl, if_neg Bool.false_ne_true]
          rw [ih]
          have hself := vstmem_toc_self st.vt slot hash pk
            ((es.voteAccounts pk).getD 0) es.totalStake
          cases hg : g
          · simp [hself, hmem, hstake, hes, apply_ite Outputs.gossipVerifiedVoteHash]
          · by_cases hpos : 0 < (es.voteAccounts pk).getD 0
            · simp [hself, hmem, hstake, hes, hpos,
                apply_ite Outputs.gossipVerifiedVoteHash]
            · simp [hself, hmem, hstake, hes, hpos,
                apply_ite Outputs.gossipVerifiedVoteHash]
      · rw [if_neg hslot]
        rw [ih]
        have hne : ¬ tip = slot := fun hh => hslot hh.symm
        simp [List.mem_cons, hne]

theorem tnv_none (vote : Vote) (pk : Nat) (bank : Bank) (g : Bool) (st : TrackState)
    (h : vote.slots.getLast? = none) :
    track_new_votes_and_notify_confirmations vote pk bank g st = st := by
  unfold track_new_votes_and_notify_confirmations
  rw [h]

theorem track_loop_mem_pres (vote : Vote) (pk2 tip hash : Nat) (g : Bool) (bank : Bank)
    (q s h : Nat) (slots : List Nat) (st : TrackState) (isNewVote : Bool)
    (hq : q ∈ vstVotedOf st.vt s h) :
    q ∈ vstVotedOf (track_loop vote pk2 tip hash g bank slots st isNewVote).vt s h :=
  track_loop_vt_pres vote pk2 tip hash g bank (fun v => q ∈ vstVotedOf v s h)
    (fun vt slot2 hash2 pk3 stake total hp =>
      vstmem_toc vt slot2 hash2 pk3 stake total q s h hp)
    slots st isNewVote hq

theorem tnv_mem_pres (vote : Vote) (pk2 : Nat) (bank : Bank) (g : Bool) (st : TrackState)
    (q s h : Nat) (hq : q ∈ vstVotedOf st.vt s h) :
    q ∈ vstVotedOf
      (track_new_votes_and_notify_confirmations vote pk2 bank g st).vt s h := by
  unfold track_new_votes_and_notify_confirmations
  cases htip : vote.slots.getLast? with
  | none => exact hq
  | some tip =>
    dsimp only
    exact track_loop_mem_pres vote pk2 tip vote.hash g bank q s h _ st false hq

theorem track_loop_tipmem (vote : Vote) (pk tip hash : Nat) (g : Bool) (bank : Bank)
    (hsome : (bank.epochStakes (bank.epochSchedule tip)).isSome = true) :
    ∀ (slots : List Nat) (st : TrackState) (isNewVote : Bool), tip ∈ slots →
      pk ∈ vstVotedOf (track_loop vote pk tip hash g bank slots st isNewVote).vt tip
        hash := by
  intro slots
  induction slots with
  | nil => intro st isNewVote hmem; exact absurd hmem (List.not_mem_nil tip)
  | cons slot rest ih =>
    intro st isNewVote hmem
    unfold track_loop
    cases hes : bank.epochStakes (bank.epochSchedule slot) with
    | none =>
      dsimp only
      have hne : ¬ slot = tip := by
        intro hh
        rw [hh] at hes
        rw [hes] at hsome
        simp at hsome
      have h1 : tip ∈ rest := by
        rcases List.mem_cons.mp hmem with h1 | h1
        · exact absurd h1.symm hne
        · exact h1
      exact ih st isNewVote h1
    | some es =>
      dsimp only
      by_cases hslot : slot = tip
      · subst hslot
        rw [if_pos rfl]
        split
        · exact vstmem_toc_self st.vt slot hash pk _ _
        · exact track_loop_mem_pres vote pk slot hash g bank pk slot hash rest _ _
            (vstmem_toc_self st.vt slot hash pk _ _)
      · rw [if_neg hslot]
        have h1 : tip ∈ rest := by
          rcases List.mem_cons.mp hmem with h1 | h1
          · exact absurd h1.symm hslot
          · exact h1
        exact ih _ isNewVote h1

theorem tnv_ghash (vote : Vote) (pk tip : Nat) (bank : Bank) (g : Bool) (st : TrackState)
    (htip : vote.slots.getLast? = some tip) :
    (track_new_votes_and_notify_confirmations vote pk bank g
        st).out.gossipVerifiedVoteHash =
      st.out.gossipVerifiedVoteHash ++
        (if g = true ∧ bank.slot < tip ∧
            (bank.epochStakes (bank.epochSchedule tip)).isSome = true ∧
            pk ∉ vstVotedOf st.vt tip vote.hash ∧ 0 < stakeOf bank tip pk
         then [(pk, tip, vote.hash)] else []) := by
  have hmem_slots : tip ∈ vote.slots := by
    obtain ⟨t, ht⟩ := exists_append_of_getLast? vote.slots tip htip
    rw [ht]
    simp
  unfold track_new_votes_and_notify_confirmations
  rw [htip]
  dsimp only
  rw [track_loop_ghash]
  have hiff : tip ∈ (vote.slots.filter fun s => decide (bank.slot < s)).reverse ↔
      bank.slot < tip := by
    constructor
    · intro hm
      rw [List.mem_reverse] at hm
      exact of_decide_eq_true (List.mem_filter.mp hm).2
    · intro hlt
      rw [List.mem_reverse]
      exact List.mem_filter.mpr ⟨hmem_slots, decide_eq_true hlt⟩
  simp only [hiff]

theorem tnv_tipmem (vote : Vote) (pk tip : Nat) (bank : Bank) (g : Bool) (st : TrackState)
    (htip : vote.slots.getLast? = some tip) (hroot : bank.slot < tip)
    (hsome : (bank.epochStakes (bank.epochSchedule tip)).isSome = true) :
    pk ∈ vstVotedOf (track_new_votes_and_notify_confirmations vote pk bank g st).vt tip
      vote.hash := by
  have hmem_slots : tip ∈ vote.slots := by
    obtain ⟨t, ht⟩ := exists_append_of_getLast? vote.slots tip htip
    rw [ht]
    simp
  unfold track_new_votes_and_notify_confirmations
  rw [htip]
  dsimp only
  exact track_loop_tipmem vote pk tip vote.hash g bank hsome _ st false
    (by rw [List.mem_reverse]; exact List.mem_filter.mpr ⟨hmem_slots, decide_eq_true hroot⟩)

theorem tnv_count (vote : Vote) (pk2 : Nat) (bank : Bank) (g : Bool) (st : TrackState)
    (pk s h : Nat) :
    (track_new_votes_and_notify_confirmations vote pk2 bank g
        st).out.gossipVerifiedVoteHash.count (pk, s, h) =
      st.out.gossipVerifiedVoteHash.count (pk, s, h) ∨
    ((track_new_votes_and_notify_confirmations vote pk2 bank g
        st).out.gossipVerifiedVoteHash.count (pk, s, h) =
      st.out.gossipVerifiedVoteHash.count (pk, s, h) + 1 ∧
      bank.slot < s ∧ pk ∉ vstVotedOf st.vt s h ∧
      pk ∈ vstVotedOf
        (track_new_votes_and_notify_confirmations vote pk2 bank g st).vt s h) := by
  cases htip : vote.slots.getLast? with
  | none =>
    left
    rw [tnv_none vote pk2 bank g st htip]
  | some tip =>
    rw [tnv_ghash vote pk2 tip bank g st htip]
    by_cases hcond : g = true ∧ bank.slot < tip ∧
        (bank.epochStakes (bank.epochSchedule tip)).isSome = true ∧
        pk2 ∉ vstVotedOf st.vt tip vote.hash ∧ 0 < stakeOf bank tip pk2
    · rw [if_pos hcond]
      by_cases hkey : ((pk2, tip, vote.hash) : Nat × Nat × Nat) = (pk, s, h)
      · right
        obtain ⟨hg, hlt, hsome, hnotmem, hpos⟩ := hcond
        have hpk : pk2 = pk := congrArg Prod.fst hkey
        have htipeq : tip = s := congrArg (fun p => p.2.1) hkey
        have hhash : vote.hash = h := congrArg (fun p => p.2.2) hkey
        refine ⟨?_, ?_, ?_, ?_⟩
        · rw [hkey, List.count_append]
          simp
        · rw [← htipeq]
          exact hlt
        · rw [← hpk, ← htipeq, ← hhash]
          exact hnotmem
        · rw [← hpk, ← htipeq, ← hhash]
          exact tnv_tipmem vote pk2 tip bank g st htip hlt hsome
      · left
        rw [List.count_append]
        have h0 : List.count ((pk, s, h) : Nat × Nat × Nat) [(pk2, tip, vote.hash)] = 0 := by
          rw [List.count_eq_zero]
          intro hin
          rcases List.mem_singleton.mp hin with hin
          exact hkey hin.symm
        rw [h0]
        omega
    · rw [if_neg hcond]
      left
      simp

theorem KeyInv_refl (bank : Bank) (pk s h : Nat) (st : TrackState) :
    KeyInv bank pk s h st st := by
  refine ⟨fun hm => ⟨rfl, hm⟩, le_refl _, by omega, fun hc => absurd hc (by omega)⟩

theorem KeyInv_trans (bank : Bank) (pk s h : Nat) (st st1 st2 : TrackState)
    (h1 : KeyInv bank pk s h st st1) (h2 : KeyInv bank pk s h st1 st2) :
    KeyInv bank pk s h st st2 := by
  obtain ⟨m1, lo1, hi1, inc1⟩ := h1
  obtain ⟨m2, lo2, hi2, inc2⟩ := h2
  refine ⟨?_, le_trans lo1 lo2, ?_, ?_⟩
  · intro hm
    obtain ⟨e1, hm1⟩ := m1 hm
    obtain ⟨e2, hm2⟩ := m2 hm1
    exact ⟨by rw [e2, e1], hm2⟩
  · by_cases hup : st1.out.gossipVerifiedVoteHash.count (pk, s, h) =
        st.out.gossipVerifiedVoteHash.count (pk, s, h) + 1
    · obtain ⟨hm1, _, _⟩ := inc1 hup
      obtain ⟨e2, _⟩ := m2 hm1
      omega
    · omega
  · intro hc
    by_cases hup : st1.out.gossipVerifiedVoteHash.count (pk, s, h) =
        st.out.gossipVerifiedVoteHash.count (pk, s, h) + 1
    · obtain ⟨hm1, hlt, hnot⟩ := inc1 hup
      obtain ⟨e2, hm2⟩ := m2 hm1
      exact ⟨hm2, hlt, hnot⟩
    · have h1e : st1.out.gossipVerifiedVoteHash.count (pk, s, h) =
          st.out.gossipVerifiedVoteHash.count (pk, s, h) := by omega
      obtain ⟨hm2, hlt, hnot1⟩ := inc2 (by omega)
      refine ⟨hm2, hlt, fun hm => ?_⟩
      obtain ⟨_, hm1⟩ := m1 hm
      exact hnot1 hm1

theorem KeyInv_tnv (vote : Vote) (pk2 : Nat) (bank : Bank) (g : Bool) (st : TrackState)
    (pk s h : Nat) :
    KeyInv bank pk s h st (track_new_votes_and_notify_confirmations vote pk2 bank g st) := by
  rcases tnv_count vote pk2 bank g st pk s h with hsame | ⟨hinc, hlt, hnot, hmem⟩
  · exact ⟨fun hm => ⟨hsame, tnv_mem_pres vote pk2 bank g st pk s h hm⟩,
      by omega, by omega, fun hc => absurd hc (by omega)⟩
  · exact ⟨fun hm => absurd hm hnot, by omega, by omega, fun _ => ⟨hmem, hlt, hnot⟩⟩

theorem items_key (bank : Bank) (pk s h : Nat) :
    ∀ (items : List (Transaction ⊕ (Nat × Vote × Option Nat))) (st : TrackState),
      KeyInv bank pk s h st (process_vote_items bank items st) := by
  intro items
  induction items with
  | nil => intro st; exact KeyInv_refl bank pk s h st
  | cons item rest ih =>
    intro st
    unfold process_vote_items
    cases item with
    | inl tx =>
      dsimp only
      cases hp : parse_vote_transaction tx with
      | none => exact ih st
      | some pv =>
        dsimp only
        split
        · exact KeyInv_trans bank pk s h _ _ _
            (KeyInv_tnv pv.2.1 pv.1 bank true st pk s h) (ih _)
        · exact ih st
    | inr rv =>
      dsimp only
      exact KeyInv_trans bank pk s h _ _ _
        (KeyInv_tnv rv.2.1 rv.1 bank false st pk s h) (ih _)

theorem batch_key (vt : VoteTracker) (gtxs : List Transaction)
    (rvs : List (Nat × Vote × Option Nat)) (b : Bank) (pk s h : Nat) :
    (filter_and_confirm_with_new_votes vt gtxs rvs
        b).out.gossipVerifiedVoteHash.count (pk, s, h) ≤ 1 ∧
    (pk ∈ vstVotedOf vt s h →
      (filter_and_confirm_with_new_votes vt gtxs rvs
          b).out.gossipVerifiedVoteHash.count (pk, s, h) = 0 ∧
      pk ∈ vstVotedOf (filter_and_confirm_with_new_votes vt gtxs rvs b).vt s h) ∧
    ((filter_and_confirm_with_new_votes vt gtxs rvs
        b).out.gossipVerifiedVoteHash.count (pk, s, h) = 1 →
      pk ∈ vstVotedOf (filter_and_confirm_with_new_votes vt gtxs rvs b).vt s h ∧
      b.slot < s) := by
  obtain ⟨hmem, hlo, hhi, hinc⟩ := items_key b pk s h
    (gtxs.map Sum.inl ++ rvs.map Sum.inr) (startState vt)
  have hstart : (startState vt).out.gossipVerifiedVoteHash.count
      ((pk, s, h) : Nat × Nat × Nat) = 0 := rfl
  rw [hstart] at hmem hlo hhi hinc
  have hvfold : vstVotedOf (filter_and_confirm_with_new_votes vt gtxs rvs b).vt s h =
      vstVotedOf (process_vote_items b (gtxs.map Sum.inl ++ rvs.map Sum.inr)
        (startState vt)).vt s h := by
    unfold filter_and_confirm_with_new_votes
    dsimp only
    rw [vstVotedOf, vstOf_diff_foldl, vstVotedOf]
    rfl
  have hout : (filter_and_confirm_with_new_votes vt gtxs rvs
      b).out.gossipVerifiedVoteHash =
    (process_vote_items b (gtxs.map Sum.inl ++ rvs.map Sum.inr)
      (startState vt)).out.gossipVerifiedVoteHash := rfl
  rw [hout, hvfold]
  refine ⟨by omega, fun hm => ?_, fun hc => ?_⟩
  · obtain ⟨e, hm'⟩ := hmem hm
    exact ⟨by omega, hm'⟩
  · obtain ⟨hm', hlt, _⟩ := hinc (by omega)
    exact ⟨hm', hlt⟩

theorem run_key (pk s h : Nat) :
    ∀ (ops : List Op) (vt : VoteTracker) (r : Nat),
      List.Pairwise (fun a b => a.bank.slot ≤ b.bank.slot) ops →
      (∀ op ∈ ops, r ≤ op.bank.slot) →
      ((pk ∈ vstVotedOf vt s h ∨ s ≤ r) →
        (run_ops vt ops).2.gossipVerifiedVoteHash.count (pk, s, h) = 0) ∧
      (run_ops vt ops).2.gossipVerifiedVoteHash.count (pk, s, h) ≤ 1 := by
  intro ops
  induction ops with
  | nil =>
    intro vt r _ _
    exact ⟨fun _ => rfl, by simp [run_ops, emptyOutputs]⟩
  | cons op rest ih =>
    intro vt r hpw hr
    cases op with
    | batch g rvs b =>
      have hpw' := List.pairwise_cons.mp hpw
      have hrb : r ≤ b.slot := hr _ (List.mem_cons_self _ _)
      have hih := ih (filter_and_confirm_with_new_votes vt g rvs b).vt b.slot
        hpw'.2 hpw'.1
      obtain ⟨hb1, hbmem, hbinc⟩ := batch_key vt g rvs b pk s h
      unfold run_ops
      dsimp only
      have happ : ∀ o1 o2 : Outputs, (appendOutputs o1 o2).gossipVerifiedVoteHash =
          o1.gossipVerifiedVoteHash ++ o2.gossipVerifiedVoteHash := fun _ _ => rfl
      rw [happ, List.count_append]
      constructor
      · intro hcase
        rcases hcase with hm | hs
        · obtain ⟨e0, hm'⟩ := hbmem hm
          have h0 := hih.1 (Or.inl hm')
          omega
        · have hsb : s ≤ b.slot := le_trans hs hrb
          have hb0 : (filter_and_confirm_with_new_votes vt g rvs
              b).out.gossipVerifiedVoteHash.count (pk, s, h) = 0 := by
            by_contra hne
            obtain ⟨_, hlt⟩ := hbinc (by omega)
            omega
          have h0 := hih.1 (Or.inr hsb)
          omega
      · by_cases h1 : (filter_and_confirm_with_new_votes vt g rvs
            b).out.gossipVerifiedVoteHash.count (pk, s, h) = 1
        · obtain ⟨hm', _⟩ := hbinc h1
          have h0 := hih.1 (Or.inl hm')
          omega
        · have h2 := hih.2
          omega
    | newRoot b =>
      have hpw' := List.pairwise_cons.mp hpw
      have hih := ih (progress_with_new_root_bank vt b) b.slot hpw'.2 hpw'.1
      unfold run_ops
      constructor
      · intro hcase
        rcases hcase with hm | hs
        · rcases vstmem_progress vt b s h pk hm with hm' | hlt
          · exact hih.1 (Or.inl hm')
          · exact hih.1 (Or.inr (le_of_lt hlt))
        · exact hih.1 (Or.inr (le_trans hs (hr _ (List.mem_cons_self _ _))))
      · exact hih.2

/-! Claim theorems. -/

theorem signer_search_iff (m : Message) (av : Nat) :
    ∀ (l : List Nat) (i : Nat),
      signer_search m av i l = true ↔
        ∃ j, i + j < m.numRequiredSignatures ∧ l.get? j = some av := by
  intro l
  induction l with
  | nil => intro i; simp [signer_search]
  | cons key rest ih =>
    intro i
    unfold signer_search
    by_cases hc : i < m.numRequiredSignatures ∧ key = av
    · rw [if_pos hc]
      constructor
      · intro _
        refine ⟨0, by have := hc.1; omega, ?_⟩
        simp [hc.2]
      · intro _
        rfl
    · rw [if_neg hc, ih (i + 1)]
      constructor
      · rintro ⟨j, hj, hget⟩
        exact ⟨j + 1, by omega, by simpa using hget⟩
      · rintro ⟨j, hj, hget⟩
        cases j with
        | zero =>
          exfalso
          have hk : key = av := by simpa using hget
          exact hc ⟨by omega, hk⟩
        | succ j' => exact ⟨j', by omega, by simpa using hget⟩

theorem vote_contains_authorized_voter_iff (tx : Transaction) (av : Nat) :
    vote_contains_authorized_voter tx av = true ↔
      ∃ j, j < tx.message.numRequiredSignatures ∧
        tx.message.accountKeys.get? j = some av := by
  unfold vote_contains_authorized_voter
  rw [signer_search_iff]
  simp

/-- Claim C1: the two configured thresholds are checked in the order
DUPLICATE_THRESHOLD then VOTE_THRESHOLD_SIZE, and over any sequence of
votes processed through track_optimistic_confirmation_vote, each
threshold of each (slot, hash) pair is reported crossed at most once:
once an index is recorded in thresholds_crossed it is never cleared
(it is still recorded after any further calls) and never fires again
(no further call reports it), and in any run the crossing events for a
given (slot, hash, threshold) number at most one. -/
theorem claim_c1 (vt : VoteTracker) (calls : List TocCall) (s h i : Nat) :
    THRESHOLDS_TO_CHECK = [DUPLICATE_THRESHOLD, VOTE_THRESHOLD_SIZE] ∧
    (i ∈ crossedOf vt s h →
      i ∈ crossedOf (run_toc vt calls).1 s h ∧
      (run_toc vt calls).2.count (s, h, i) = 0) ∧
    (run_toc vt calls).2.count (s, h, i) ≤ 1 :=
  ⟨rfl,
    fun hi => ⟨run_toc_mono calls vt s h i hi, run_toc_zero calls vt s h i hi⟩,
    run_toc_le_one calls vt s h i⟩

/-- Witness for C1 at concrete inputs: with both thresholds already
recorded for (slot 1, hash 7), a further vote neither clears the
record nor fires again. -/
theorem claim_c1_witness :
    (0 ∈ crossedOf wVtCrossed 1 7 ∧
      0 ∈ crossedOf (run_toc wVtCrossed [⟨1, 7, 5, 100, 1000⟩]).1 1 7 ∧
      (run_toc wVtCrossed [⟨1, 7, 5, 100, 1000⟩]).2.count (1, 7, 0) = 0) ∧
    (run_toc wVtCrossed [⟨1, 7, 5, 100, 1000⟩]).2.count (1, 7, 0) ≤ 1 :=
  ⟨⟨by decide,
      ((claim_c1 wVtCrossed [⟨1, 7, 5, 100, 1000⟩] 1 7 0).2.1 (by decide)).1,
      ((claim_c1 wVtCrossed [⟨1, 7, 5, 100, 1000⟩] 1 7 0).2.1 (by decide)).2⟩,
    (claim_c1 wVtCrossed [⟨1, 7, 5, 100, 1000⟩] 1 7 0).2.2⟩

/-- Claim C2, first half: a gossip vote transaction passes
filter_gossip_votes exactly when its parsed vote has a non-empty slot
list (a last slot, the tip), the tracker knows an authorized voter for
the vote account at the tip's epoch, and some signer position of the
transaction (an account-key index below numRequiredSignatures)
carries exactly that authorized voter's pubkey. Second half: a gossip
vote that is not signed by the authorized voter of its tip's epoch
leaves the tracker, the diff, the optimistic list and every outbound
bus untouched when processed by filter_and_confirm_with_new_votes. -/
theorem claim_c2 :
    (∀ (vt : VoteTracker) (votePubkey : Nat) (vote : Vote) (tx : Transaction),
      filter_gossip_votes vt votePubkey vote tx = true ↔
        ∃ tip, vote.slots.getLast? = some tip ∧
          ∃ av, get_authorized_voter vt votePubkey tip = some av ∧
            ∃ j, j < tx.message.numRequiredSignatures ∧
              tx.message.accountKeys.get? j = some av) ∧
    (∀ (vt : VoteTracker) (rootBank : Bank) (tx : Transaction)
      (pv : Nat × Vote × Option Nat) (tip av : Nat),
      parse_vote_transaction tx = some pv →
      pv.2.1.slots.getLast? = some tip →
      get_authorized_voter vt pv.1 tip = some av →
      vote_contains_authorized_voter tx av = false →
      filter_and_confirm_with_new_votes vt [tx] [] rootBank =
        { vt := vt, diff := [], newOptimistic := [], out := emptyOutputs }) := by
  have hiff : ∀ (vt : VoteTracker) (votePubkey : Nat) (vote : Vote) (tx : Transaction),
      filter_gossip_votes vt votePubkey vote tx = true ↔
        ∃ tip, vote.slots.getLast? = some tip ∧
          ∃ av, get_authorized_voter vt votePubkey tip = some av ∧
            ∃ j, j < tx.message.numRequiredSignatures ∧
              tx.message.accountKeys.get? j = some av := by
    intro vt votePubkey vote tx
    constructor
    · intro htrue
      unfold filter_gossip_votes at htrue
      cases hlast : vote.slots.getLast? with
      | none =>
        rw [hlast] at htrue
        exact absurd htrue (by simp)
      | some tip =>
        rw [hlast] at htrue
        dsimp only at htrue
        cases hav : get_authorized_voter vt votePubkey tip with
        | none =>
          rw [hav] at htrue
          exact absurd htrue (by simp)
        | some av =>
          rw [hav] at htrue
          dsimp only at htrue
          obtain ⟨j, hj, hget⟩ := (vote_contains_authorized_voter_iff tx av).mp htrue
          exact ⟨tip, rfl, av, hav, j, hj, hget⟩
    · rintro ⟨tip, htip, av, hav, j, hj, hget⟩
      unfold filter_gossip_votes
      rw [htip]
      dsimp only
      rw [hav]
      exact (vote_contains_authorized_voter_iff tx av).mpr ⟨j, hj, hget⟩
  refine ⟨hiff, ?_⟩
  intro vt rootBank tx pv tip av hparse hlast hauth hsig
  have hfilter : filter_gossip_votes vt pv.1 pv.2.1 tx = false := by
    rw [Bool.eq_false_iff]
    intro htrue
    obtain ⟨tip', htip', av', hav', j, hj, hget⟩ := (hiff vt pv.1 pv.2.1 tx).mp htrue
    rw [htip'] at hlast
    cases hlast
    rw [hav'] at hauth
    cases hauth
    have : vote_contains_authorized_voter tx av = true :=
      (vote_contains_authorized_voter_iff tx av).mpr ⟨j, hj, hget⟩
    rw [this] at hsig
    exact Bool.noConfusion hsig
  unfold filter_and_confirm_with_new_votes
  simp only [List.map_cons, List.map_nil, List.nil_append, List.append_nil]
  unfold process_vote_items
  rw [hparse]
  simp only [hfilter, if_false, Bool.false_eq_true]
  rfl

/-- Witness for C2 at concrete inputs: a gossip vote of vote account 0
for tip slot 1 signed by the authorized voter 50 passes the filter; the
same vote signed only by the non-authorized key 77 is processed
without any state change or message. -/
theorem claim_c2_witness :
    filter_gossip_votes wVt 0 { slots := [1], hash := 7 } (wGossipTx 7) = true ∧
    filter_and_confirm_with_new_votes wVt [wBadTx] [] wBank =
      { vt := wVt, diff := [], newOptimistic := [], out := emptyOutputs } :=
  ⟨(claim_c2.1 wVt 0 { slots := [1], hash := 7 } (wGossipTx 7)).mpr
      ⟨1, rfl, 50, rfl, 0, by decide, rfl⟩,
    claim_c2.2 wVt wBank wBadTx (0, { slots := [1], hash := 7 }, none) 1 50 rfl rfl rfl
      (by decide)⟩

/-- Claim C3: after progress_with_new_root_bank with root bank R, the
slot-to-SlotVoteTracker map has no entry at a slot below R's slot, and
every entry at or above R's slot is still the entry that was there
before, unchanged. -/
theorem claim_c3 (vt : VoteTracker) (rootBank : Bank) :
    (∀ s, s < rootBank.slot →
      (progress_with_new_root_bank vt rootBank).slotVoteTrackers s = none) ∧
    (∀ s, rootBank.slot ≤ s →
      (progress_with_new_root_bank vt rootBank).slotVoteTrackers s =
        vt.slotVoteTrackers s) := by
  unfold progress_with_new_root_bank
  rw [purge_slotVoteTrackers, progress_lse_slotVoteTrackers]
  constructor
  · intro s hs
    simp [Nat.not_le.mpr hs]
  · intro s hs
    simp [hs]

/-- Witness for C3 at concrete inputs: a tracker with entries at slots
0 and 5 and a root bank at slot 1; the entry at 0 is gone and the one
at 5 is untouched. -/
theorem claim_c3_witness :
    ((0 : Nat) < wBank.slot ∧
      (progress_with_new_root_bank wVtSlots wBank).slotVoteTrackers 0 = none) ∧
    (wBank.slot ≤ 5 ∧
      (progress_with_new_root_bank wVtSlots wBank).slotVoteTrackers 5 =
        wVtSlots.slotVoteTrackers 5) :=
  ⟨⟨by decide, (claim_c3 wVtSlots wBank).1 0 (by decide)⟩,
    ⟨by decide, (claim_c3 wVtSlots wBank).2 5 (by decide)⟩⟩

/-- Claim C4: during advance_to_root (its purge_stale_state step), in
any state where the stored current_epoch does not exceed the root
bank's epoch (as holds in every run, the root being monotone), the
epoch_authorized map is purged exactly when the root's epoch is
greater than current_epoch: then every entry below the root's epoch is
dropped (entries at or above it are kept) and current_epoch becomes
the root's epoch; when the root's epoch equals current_epoch, both the
map and current_epoch are unchanged. -/
theorem claim_c4 (vt : VoteTracker) (rootBank : Bank)
    (h : vt.currentEpoch ≤ rootBank.epoch) :
    (vt.currentEpoch < rootBank.epoch →
      (∀ e, e < rootBank.epoch →
        (purge_stale_state vt rootBank).epochAuthorizedVoters e = none) ∧
      (∀ e, rootBank.epoch ≤ e →
        (purge_stale_state vt rootBank).epochAuthorizedVoters e =
          vt.epochAuthorizedVoters e) ∧
      (purge_stale_state vt rootBank).currentEpoch = rootBank.epoch) ∧
    (vt.currentEpoch = rootBank.epoch →
      (purge_stale_state vt rootBank).epochAuthorizedVoters =
        vt.epochAuthorizedVoters ∧
      (purge_stale_state vt rootBank).currentEpoch = vt.currentEpoch) := by
  constructor
  · intro hlt
    have hne : rootBank.epoch ≠ vt.currentEpoch := fun hc => absurd hc.symm (Nat.ne_of_lt hlt)
    rw [purge_epochAuthorizedVoters, purge_currentEpoch]
    refine ⟨?_, ?_, ?_⟩
    · intro e he
      simp [hne, Nat.not_le.mpr he]
    · intro e he
      simp [hne, he]
    · simp [hne]
  · intro heq
    have hne : ¬ rootBank.epoch ≠ vt.currentEpoch := by omega
    rw [purge_epochAuthorizedVoters, purge_currentEpoch]
    simp [hne]

/-- Witness for C4 at concrete inputs: crossing from epoch 0 into
epoch 1 drops the epoch-0 authorized-voter entry and sets
current_epoch to 1. -/
theorem claim_c4_witness :
    wVt.currentEpoch < wBankE1.epoch ∧
    (purge_stale_state wVt wBankE1).epochAuthorizedVoters 0 = none ∧
    (purge_stale_state wVt wBankE1).currentEpoch = wBankE1.epoch :=
  ⟨by decide,
    ((claim_c4 wVt wBankE1 (by decide)).1 (by decide)).1 0 (by decide),
    ((claim_c4 wVt wBankE1 (by decide)).1 (by decide)).2.2⟩

/-- Claim C5: when a replay-origin vote (is_gossip false) is processed
and its tip (slot, hash) voter was already present in that
VoteStakeTracker (so was_newly_added is false), the function stops at
the tip: the scratch diff is left exactly as it was (no entry for any
slot of the Vote, the lower slots are skipped), no new optimistic
slot is recorded, and nothing is sent on any bus (in particular the
verified-vote bus and the subscriber callback); a gossip-origin vote
under the same conditions is never short-circuited: every slot of the
Vote above the root with a known epoch still gets its diff entry. -/
theorem claim_c5 (vote : Vote) (votePubkey tip : Nat) (rootBank : Bank) (st : TrackState)
    (htip : vote.slots.getLast? = some tip)
    (hroot : rootBank.slot < tip)
    (hepoch : (rootBank.epochStakes (rootBank.epochSchedule tip)).isSome)
    (hmem : votePubkey ∈ vstVotedOf st.vt tip vote.hash) :
    ((track_new_votes_and_notify_confirmations vote votePubkey rootBank false st).diff =
        st.diff ∧
      (track_new_votes_and_notify_confirmations vote votePubkey rootBank false
          st).newOptimistic = st.newOptimistic ∧
      (track_new_votes_and_notify_confirmations vote votePubkey rootBank false st).out =
        st.out) ∧
    (∀ s ∈ vote.slots, rootBank.slot < s →
      (rootBank.epochStakes (rootBank.epochSchedule s)).isSome →
      DiffHas
        (track_new_votes_and_notify_confirmations vote votePubkey rootBank true st).diff
        s votePubkey) := by
  obtain ⟨rest, hrev⟩ := filter_reverse_tip vote.slots tip rootBank.slot htip hroot
  obtain ⟨es, hes⟩ := Option.isSome_iff_exists.mp hepoch
  have htoc := toc_result_of_mem st.vt tip vote.hash votePubkey
    ((es.voteAccounts votePubkey).getD 0) es.totalStake hmem
  constructor
  · unfold track_new_votes_and_notify_confirmations
    rw [htip]
    dsimp only
    rw [hrev]
    simp only [track_loop]
    rw [hes]
    dsimp only
    simp [htoc]
  · intro s hs hsroot hsome
    unfold track_new_votes_and_notify_confirmations
    rw [htip]
    dsimp only
    refine (track_loop_diff_gossip vote votePubkey tip vote.hash rootBank _ st false).2
      s ?_ hsome
    rw [List.mem_reverse, List.mem_filter]
    exact ⟨hs, by simpa using hsroot⟩

/-- Witness for C5 at concrete inputs: voter 0, already present in the
(slot 1, hash 7) tracker, votes [1] again from replay: diff,
optimistic list and all buses unchanged; from gossip the diff entry
for slot 1 is still recorded. -/
theorem claim_c5_witness :
    ((track_new_votes_and_notify_confirmations { slots := [1], hash := 7 } 0 wBankRoot0
        false wStVoted).diff = wStVoted.diff ∧
      (track_new_votes_and_notify_confirmations { slots := [1], hash := 7 } 0 wBankRoot0
        false wStVoted).out = wStVoted.out) ∧
    DiffHas
      (track_new_votes_and_notify_confirmations { slots := [1], hash := 7 } 0 wBankRoot0
        true wStVoted).diff 1 0 :=
  ⟨⟨(claim_c5 { slots := [1], hash := 7 } 0 1 wBankRoot0 wStVoted rfl (by decide) rfl
        (by decide)).1.1,
      (claim_c5 { slots := [1], hash := 7 } 0 1 wBankRoot0 wStVoted rfl (by decide) rfl
        (by decide)).1.2.2⟩,
    (claim_c5 { slots := [1], hash := 7 } 0 1 wBankRoot0 wStVoted rfl (by decide) rfl
        (by decide)).2 1 (by decide) (by decide) rfl⟩

/-- Counterexample to claim C6 as stated: the at-most-once guarantee
is per (voter, tip slot, tip hash), not per (voter, tip slot). In one
batch, two gossip votes of voter 0 for the same tip slot 1 but
different tip hashes 7 and 8 (an equivocation) each newly add voter 0
to their own (1, hash) VoteStakeTracker, so the run publishes
(voter 0, slot 1) twice on the gossip-verified-vote-hash bus. -/
theorem claim_c6_counterexample :
    ((run_ops wVt
        [Op.batch [wGossipTx 7, wGossipTx 8] [] wBankRoot0]).2.gossipVerifiedVoteHash.map
      fun m => (m.1, m.2.1)) = [(0, 1), (0, 1)] := by
  rfl

/-- C6 (corrected): a (voter, tip, hash) message is published on the
gossip-verified-vote-hash bus exactly when a gossip-origin vote whose
tip slot is above the root and has known epoch stakes newly adds the
voter to the (tip, hash) VoteStakeTracker and the voter's stake is
positive; and over any run whose root banks are slot-monotone, such a
publication happens at most once per (voter, tip slot, tip hash) —
not per (voter, tip slot) as the spec states, since equivocating
votes for the same tip with different hashes each publish once. -/
theorem claim_c6 :
    (∀ (vote : Vote) (pk tip : Nat) (bank : Bank) (g : Bool) (st : TrackState),
        vote.slots.getLast? = some tip →
        (track_new_votes_and_notify_confirmations vote pk bank g
            st).out.gossipVerifiedVoteHash =
          st.out.gossipVerifiedVoteHash ++
            (if g = true ∧ bank.slot < tip ∧
                (bank.epochStakes (bank.epochSchedule tip)).isSome = true ∧
                pk ∉ vstVotedOf st.vt tip vote.hash ∧ 0 < stakeOf bank tip pk
             then [(pk, tip, vote.hash)] else [])) ∧
    (∀ (ops : List Op) (vt : VoteTracker) (pk s h : Nat),
        List.Pairwise (fun a b => a.bank.slot ≤ b.bank.slot) ops →
        (run_ops vt ops).2.gossipVerifiedVoteHash.count (pk, s, h) ≤ 1) :=
  ⟨fun vote pk tip bank g st htip => tnv_ghash vote pk tip bank g st htip,
   fun ops vt pk s h hpw =>
     (run_key pk s h ops vt 0 hpw (fun _ _ => Nat.zero_le _)).2⟩

theorem claim_c6_witness :
    (([1] : List Nat).getLast? = some 1 ∧
      List.Pairwise (fun (a b : Op) => a.bank.slot ≤ b.bank.slot)
        [Op.batch [wGossipTx 7] [] wBankRoot0]) ∧
    (track_new_votes_and_notify_confirmations { slots := [1], hash := 7 } 0 wBankRoot0
        true (startState wVt)).out.gossipVerifiedVoteHash =
      (startState wVt).out.gossipVerifiedVoteHash ++
        (if true = true ∧ wBankRoot0.slot < 1 ∧
            (wBankRoot0.epochStakes (wBankRoot0.epochSchedule 1)).isSome = true ∧
            0 ∉ vstVotedOf (startState wVt).vt 1 7 ∧ 0 < stakeOf wBankRoot0 1 0
         then [(0, 1, 7)] else []) ∧
    (run_ops wVt
        [Op.batch [wGossipTx 7] [] wBankRoot0]).2.gossipVerifiedVoteHash.count
      (0, 1, 7) ≤ 1 :=
  ⟨⟨rfl, by simp⟩,
   claim_c6.1 { slots := [1], hash := 7 } 0 1 wBankRoot0 true (startState wVt) rfl,
   claim_c6.2 [Op.batch [wGossipTx 7] [] wBankRoot0] wVt 0 1 7 (by simp)⟩

/-- Counterexample to claim C8 as stated: at the first wakeup both
drains come back empty, yet the call does not return an empty batch
with filter-and-confirm unrun; it retries, and the second wakeup's
replay vote is processed, sending (0, [1]) on the verified-vote bus. -/
theorem claim_c8_counterexample :
    wWakeupEmpty.gossip = [] ∧ wWakeupEmpty.replay = [] ∧
    (listen_and_confirm_votes wVt wBankRoot0 [wWakeupEmpty, wWakeupReplay] 200).map
      (fun r => r.2.2.verifiedVotes) = some [(0, [1])] := ⟨rfl, rfl, rfl⟩

/-- Claim C8 as amended: after a select wakeup whose two non-blocking
drains both come back empty, listen_and_confirm_votes does not run
filter-and-confirm but debits the elapsed time (at least 1 ms) from
the 200 ms budget and waits again, so a call all of whose drains are
empty returns the empty batch (once the budget is exhausted) or the
ReadyTimeout error, with the tracker untouched and nothing sent; the
first wakeup with a non-empty drain inside the budget runs
filter-and-confirm on the drained batches and its result is
returned. -/
theorem claim_c8 :
    (∀ (vt : VoteTracker) (rootBank : Bank) (ws : List Wakeup) (budget : Nat),
      (∀ w ∈ ws, w.gossip = [] ∧ w.replay = []) →
      listen_and_confirm_votes vt rootBank ws budget = some ([], vt, emptyOutputs) ∨
      listen_and_confirm_votes vt rootBank ws budget = none) ∧
    (∀ (vt : VoteTracker) (rootBank : Bank) (ws1 : List Wakeup) (w : Wakeup)
      (ws2 : List Wakeup) (budget : Nat),
      (∀ x ∈ ws1, x.gossip = [] ∧ x.replay = []) →
      ¬(w.gossip.isEmpty && w.replay.isEmpty) = true →
      listen_debit ws1 < budget →
      listen_and_confirm_votes vt rootBank (ws1 ++ w :: ws2) budget =
        some
          ((filter_and_confirm_with_new_votes vt w.gossip w.replay rootBank).newOptimistic,
            (filter_and_confirm_with_new_votes vt w.gossip w.replay rootBank).vt,
            (filter_and_confirm_with_new_votes vt w.gossip w.replay rootBank).out)) := by
  constructor
  · intro vt rootBank ws
    induction ws with
    | nil =>
      intro budget _
      cases budget with
      | zero => exact Or.inl rfl
      | succ b => exact Or.inr rfl
    | cons w rest ih =>
      intro budget hall
      cases budget with
      | zero => exact Or.inl rfl
      | succ b =>
        have hw := hall w (List.mem_cons_self w rest)
        have heq : listen_and_confirm_votes vt rootBank (w :: rest) (b + 1) =
            listen_and_confirm_votes vt rootBank rest (b + 1 - max w.elapsedMs 1) := by
          show (if w.gossip.isEmpty && w.replay.isEmpty then _ else _) = _
          rw [if_pos (by simp [hw.1, hw.2])]
        rw [heq]
        exact ih _ (fun x hx => hall x (List.mem_cons_of_mem w hx))
  · intro vt rootBank ws1
    induction ws1 with
    | nil =>
      intro w ws2 budget _ hne hb
      cases budget with
      | zero => exact absurd hb (by simp [listen_debit])
      | succ b =>
        show (if w.gossip.isEmpty && w.replay.isEmpty then _ else _) = _
        rw [if_neg hne]
    | cons x rest ih =>
      intro w ws2 budget hall hne hb
      cases budget with
      | zero => exact absurd hb (by omega)
      | succ b =>
        have hx := hall x (List.mem_cons_self x rest)
        show (if x.gossip.isEmpty && x.replay.isEmpty then _ else _) = _
        rw [if_pos (by simp [hx.1, hx.2])]
        refine ih w ws2 _ (fun z hz => hall z (List.mem_cons_of_mem x hz)) hne ?_
        have : listen_debit (x :: rest) = max x.elapsedMs 1 + listen_debit rest := by
          simp [listen_debit]
        omega

/-- Witness for C8 (amended) at concrete inputs: a run of only empty
wakeups sends nothing and yields the empty batch or the timeout
error, and one empty wakeup followed by a replay wakeup returns the
filter-and-confirm result of the replay batch. -/
theorem claim_c8_witness :
    (listen_and_confirm_votes wVt wBankRoot0 [wWakeupEmpty] 200 =
        some ([], wVt, emptyOutputs) ∨
      listen_and_confirm_votes wVt wBankRoot0 [wWakeupEmpty] 200 = none) ∧
    listen_and_confirm_votes wVt wBankRoot0 [wWakeupEmpty, wWakeupReplay] 200 =
      some
        ((filter_and_confirm_with_new_votes wVt wWakeupReplay.gossip wWakeupReplay.replay
            wBankRoot0).newOptimistic,
          (filter_and_confirm_with_new_votes wVt wWakeupReplay.gossip wWakeupReplay.replay
            wBankRoot0).vt,
          (filter_and_confirm_with_new_votes wVt wWakeupReplay.gossip wWakeupReplay.replay
            wBankRoot0).out) :=
  ⟨claim_c8.1 wVt wBankRoot0 [wWakeupEmpty] 200
      (by intro w hw; simp at hw; subst hw; exact ⟨rfl, rfl⟩),
    claim_c8.2 wVt wBankRoot0 [wWakeupEmpty] wWakeupReplay [] 200
      (by intro w hw; simp at hw; subst hw; exact ⟨rfl, rfl⟩) (by decide) (by decide)⟩

/-- Claim C9: the gossip-only-stake accounting. In every tracker state
reachable by filter-and-confirm batches from a state with no slot
trackers (conjuncts 1 and 2), each slot's gossip_only_stake equals the
sum, over exactly the voters whose voted entry is true (first sighted
via gossip, or promoted at their first later gossip sighting), of that
voter's stake in the slot's epoch — so each voter's stake enters the
counter exactly once, at the batch of its first gossip sighting, and a
voter first seen via gossip contributes exactly once at insertion; and
(conjunct 3) a voted entry once true stays true through any further
batch, so no later gossip or replay observation of that voter can
increase gossip_only_stake again. -/
theorem claim_c9 :
    (∀ (rootBank : Bank) (vt : VoteTracker),
      (∀ s, vt.slotVoteTrackers s = none) → GosInv rootBank vt) ∧
    (∀ (rootBank : Bank) (vt : VoteTracker)
      (batches : List (List Transaction × List (Nat × Vote × Option Nat))),
      GosInv rootBank vt → GosInv rootBank (run_batches rootBank vt batches)) ∧
    (∀ (rootBank : Bank) (vt : VoteTracker) (gtxs : List Transaction)
      (rvs : List (Nat × Vote × Option Nat)) (slot pk : Nat),
      VotedTrue vt slot pk →
      VotedTrue (filter_and_confirm_with_new_votes vt gtxs rvs rootBank).vt slot pk) := by
  refine ⟨?_, ?_, ?_⟩
  · intro rootBank vt hempty slot st hst
    rw [hempty slot] at hst
    exact Option.noConfusion hst
  · intro rootBank vt batches
    induction batches generalizing vt with
    | nil => intro hi; exact hi
    | cons b rest ih =>
      intro hi
      exact ih _ (gosinv_filter_and_confirm rootBank vt b.1 b.2 hi)
  · intro rootBank vt gtxs rvs slot pk hv
    exact votedtrue_filter_and_confirm rootBank vt gtxs rvs slot pk hv

/-- Witness for C9 at concrete inputs: the invariant holds for the
empty tracker, survives a batch containing a gossip vote, and a
gossip-seen voted entry survives a further replay batch. -/
theorem claim_c9_witness :
    GosInv wBank wVt ∧
    GosInv wBank (run_batches wBank wVt [([wGossipTx 7], [])]) ∧
    VotedTrue (filter_and_confirm_with_new_votes wVtGossipSeen []
      [(0, { slots := [1], hash := 7 }, none)] wBank).vt 1 0 :=
  ⟨claim_c9.1 wBank wVt (fun _ => rfl),
    claim_c9.2.1 wBank wVt [([wGossipTx 7], [])] (claim_c9.1 wBank wVt (fun _ => rfl)),
    claim_c9.2.2 wBank wVtGossipSeen [] [(0, { slots := [1], hash := 7 }, none)] 1 0
      ⟨wSlotGossipSeen, rfl, rfl⟩⟩

/-- Claim C10: verify_votes returns the input-order sublist of
transactions satisfying verify_votes_keep (kept exactly when the
transaction parses as a vote with a non-empty slot list, its packet is
not marked discard by signature verification, and its signature list
is non-empty), paired index by index with the metadata of that same
transaction (its parsed vote account key and vote, its one-packet
chunk, its first signature); both outputs have equal length. -/
theorem claim_c10 (discard : Transaction → Bool) (votes : List Transaction) :
    (verify_votes discard votes).1 = votes.filter (verify_votes_keep discard) ∧
    (verify_votes discard votes).2 =
      ((verify_votes discard votes).1).map (verify_votes_meta discard) ∧
    (verify_votes discard votes).1.length = (verify_votes discard votes).2.length := by
  rw [verify_votes_characterization]
  simp

/-- Claim C7: votes with an empty slot list are dropped at every
stage: verify_votes keeps, in either output, only transactions whose
parsed vote has slots; filter_gossip_votes rejects an empty-slot vote;
and track_new_votes_and_notify_confirmations returns its state
untouched on an empty-slot vote (no tracker mutation, no message). -/
theorem claim_c7 :
    (∀ (discard : Transaction → Bool) (votes : List Transaction) (tx : Transaction),
      tx ∈ (verify_votes discard votes).1 →
      ∃ pv, parse_vote_transaction tx = some pv ∧ pv.2.1.slots ≠ []) ∧
    (∀ (discard : Transaction → Bool) (votes : List Transaction)
      (meta : VerifiedVoteMetadata),
      meta ∈ (verify_votes discard votes).2 → meta.vote.slots ≠ []) ∧
    (∀ (vt : VoteTracker) (votePubkey : Nat) (vote : Vote) (tx : Transaction),
      vote.slots = [] → filter_gossip_votes vt votePubkey vote tx = false) ∧
    (∀ (vote : Vote) (votePubkey : Nat) (rootBank : Bank) (isGossip : Bool)
      (st : TrackState),
      vote.slots = [] →
      track_new_votes_and_notify_confirmations vote votePubkey rootBank isGossip st =
        st) := by
  have hkeep : ∀ (discard : Transaction → Bool) (tx : Transaction),
      verify_votes_keep discard tx = true →
      ∃ pv, parse_vote_transaction tx = some pv ∧ pv.2.1.slots ≠ [] := by
    intro discard tx hk
    unfold verify_votes_keep at hk
    cases hp : parse_vote_transaction tx with
    | none => rw [hp] at hk; exact absurd hk (by simp)
    | some pv =>
      rw [hp] at hk
      refine ⟨pv, rfl, ?_⟩
      intro hnil
      simp [hnil] at hk
  refine ⟨?_, ?_, ?_, ?_⟩
  · intro discard votes tx htx
    rw [verify_votes_characterization] at htx
    exact hkeep discard tx (List.of_mem_filter htx)
  · intro discard votes meta hmeta
    rw [verify_votes_characterization] at hmeta
    simp only [List.mem_map] at hmeta
    obtain ⟨tx, htx, rfl⟩ := hmeta
    obtain ⟨pv, hp, hne⟩ := hkeep discard tx (List.of_mem_filter htx)
    unfold verify_votes_meta
    rw [hp]
    exact hne
  · intro vt votePubkey vote tx hnil
    unfold filter_gossip_votes
    rw [hnil]
    rfl
  · intro vote votePubkey rootBank isGossip st hnil
    unfold track_new_votes_and_notify_confirmations
    rw [hnil]
    rfl

/-- Witness for C7 at concrete inputs: a retained transaction has a
non-empty parsed slot list, and a vote with an empty slot list is
rejected by the gossip filter and leaves the track state untouched. -/
theorem claim_c7_witness :
    (wGossipTx 7 ∈ (verify_votes (fun _ => false) [wGossipTx 7]).1 ∧
      ∃ pv, parse_vote_transaction (wGossipTx 7) = some pv ∧ pv.2.1.slots ≠ []) ∧
    (({ slots := [], hash := 7 } : Vote).slots = [] ∧
      filter_gossip_votes wVt 0 { slots := [], hash := 7 } wBadTx = false) ∧
    track_new_votes_and_notify_confirmations { slots := [], hash := 7 } 0 wBank true
        { vt := wVt, diff := [], newOptimistic := [], out := emptyOutputs } =
      { vt := wVt, diff := [], newOptimistic := [], out := emptyOutputs } :=
  ⟨⟨by decide, claim_c7.1 (fun _ => false) [wGossipTx 7] (wGossipTx 7) (by decide)⟩,
    ⟨rfl, claim_c7.2.2.1 wVt 0 { slots := [], hash := 7 } wBadTx rfl⟩,
    claim_c7.2.2.2 { slots := [], hash := 7 } 0 wBank true
      { vt := wVt, diff := [], newOptimistic := [], out := emptyOutputs } rfl⟩

end SolanaKS
